import Mathlib

/-!
# romba: the `datstats` job and the dat output helpers

A shallow embedding of `service/stats.go` (the `datstats` command: the job guard,
the background job with its progress broadcaster, the per-dat visitor, the two
report loops) and of `omitQuote` from `types/out.go`, followed by the properties
proved about them.

Conventions of the embedding:

* `int64` values (`Rom.Size`, `Dat.Generation`, `Bracket.Count`, `Bracket.ValueAt`)
  are `Int`; `uint64` values are `Nat` reduced modulo `2^64`; the `int64`
  subtraction of the histogram loop wraps explicitly.
* The `int` counters of `datStats` go up by one per visited record; they are `Int`
  without wrap-around.
* The argument and the result of `omitQuote` are Go strings as they are: sequences
  of bytes, each a `Nat` below 256, valid UTF-8 or not; the functions are defined
  on every list and read a value of 256 or more as an invalid byte. A rune is an
  `Int`. Strings that are only copied or compared (names, messages) are Lean
  strings.
* The histogram library, `humanize.IBytes`, the deduper and the dat store are
  outside the repository sources: they are the fields of `Env`.
* The job goroutine, the ticker and the broadcaster goroutine are three actors of
  a step function; a schedule is the list of actors in the order they move.
-/

namespace Romba

/-! ## `types/out.go` -/

/-- The rune `utf8.RuneError`, U+FFFD. -/
def RuneError : Int := 0xFFFD

/-- The function `utf8.DecodeRuneInString`: the first rune of `s` and its width in
bytes. A byte that does not start a well-formed encoding (a stray continuation
byte, an overlong or truncated sequence, a surrogate, a value above U+10FFFF) is
read as `RuneError` of width 1. The library's tables `first` and `acceptRanges`
are written out as comparisons. -/
def decodeRune : List Nat → Int × Nat
  | [] => (RuneError, 0)
  | s0 :: rest =>
    if s0 < 0x80 then ((s0 : Int), 1)
    else if s0 < 0xC2 then (RuneError, 1)
    else if s0 < 0xE0 then
      match rest with
      | s1 :: _ =>
        if 0x80 ≤ s1 ∧ s1 ≤ 0xBF then (((s0 % 32 * 64 + s1 % 64 : Nat) : Int), 2)
        else (RuneError, 1)
      | _ => (RuneError, 1)
    else if s0 < 0xF0 then
      match rest with
      | s1 :: s2 :: _ =>
        if (if s0 = 0xE0 then 0xA0 else 0x80) ≤ s1 ∧ s1 ≤ (if s0 = 0xED then 0x9F else 0xBF) then
          if 0x80 ≤ s2 ∧ s2 ≤ 0xBF then
            (((s0 % 16 * 4096 + s1 % 64 * 64 + s2 % 64 : Nat) : Int), 3)
          else (RuneError, 1)
        else (RuneError, 1)
      | _ => (RuneError, 1)
    else if s0 < 0xF5 then
      match rest with
      | s1 :: s2 :: s3 :: _ =>
        if (if s0 = 0xF0 then 0x90 else 0x80) ≤ s1 ∧ s1 ≤ (if s0 = 0xF4 then 0x8F else 0xBF) then
          if 0x80 ≤ s2 ∧ s2 ≤ 0xBF then
            if 0x80 ≤ s3 ∧ s3 ≤ 0xBF then
              (((s0 % 8 * 262144 + s1 % 64 * 4096 + s2 % 64 * 64 + s3 % 64 : Nat) : Int), 4)
            else (RuneError, 1)
          else (RuneError, 1)
        else (RuneError, 1)
      | _ => (RuneError, 1)
    else (RuneError, 1)

/-- The runes of `for _, c := range s`, with `fuel` iterations allowed: each
iteration decodes one rune and moves on by its width. -/
def rangeRunes : Nat → List Nat → List Int
  | 0, _ => []
  | _ + 1, [] => []
  | fuel + 1, b :: bs =>
    (decodeRune (b :: bs)).1 :: rangeRunes fuel ((b :: bs).drop (decodeRune (b :: bs)).2)

/-- The bytes `WriteRune r` appends (`utf8.AppendRune`): the UTF-8 encoding of `r`,
or that of `RuneError` when `r` is negative, a surrogate or above U+10FFFF. -/
def encodeRune (r : Int) : List Nat :=
  if 0 ≤ r ∧ r ≤ 0x7F then [r.toNat]
  else if 0 ≤ r ∧ r ≤ 0x7FF then [0xC0 + r.toNat / 64, 0x80 + r.toNat % 64]
  else if r < 0 ∨ 0x10FFFF < r ∨ (0xD800 ≤ r ∧ r ≤ 0xDFFF) then [0xEF, 0xBF, 0xBD]
  else if r ≤ 0xFFFF then
    [0xE0 + r.toNat / 4096, 0x80 + r.toNat / 64 % 64, 0x80 + r.toNat % 64]
  else
    [0xF0 + r.toNat / 262144, 0x80 + r.toNat / 4096 % 64, 0x80 + r.toNat / 64 % 64,
      0x80 + r.toNat % 64]

/-- The function `strings.Map`: every rune of the range over `s` is passed to
`mapping`; a negative result drops the rune, any other result is written to the
output. An invalid byte of `s` ranges as `RuneError` and, kept by the mapping, is
written as the three bytes of U+FFFD. (The library copies the bytes of validly
encoded runes that the mapping keeps; they are the encoding of those runes.) -/
def stringsMap (mapping : Int → Int) (s : List Nat) : List Nat :=
  ((rangeRunes s.length s).map fun c =>
    let r := mapping c
    if r < 0 then [] else encodeRune r).flatten

/-- The mapping closure of `omitQuote`: `-1` on the double quote (rune 34), the
rune itself otherwise. -/
def omitQuoteMapping (r : Int) : Int :=
  if r = 34 then -1 else r

/-- The function `omitQuote` of `types/out.go`. -/
def omitQuote (v : List Nat) : List Nat :=
  stringsMap omitQuoteMapping v

/-! ## Data model (`types.Dat`, `types.Game`, `types.Rom`) -/

/-- A rom: only the fields `datstats` reads. `Size` is an `int64`. -/
structure Rom where
  Name : String
  Size : Int
  deriving DecidableEq, Repr

/-- A game with its roms. -/
structure Game where
  Name : String
  Description : String
  Roms : List Rom
  deriving DecidableEq, Repr

/-- A dat with its generation marker and its games. -/
structure Dat where
  Name : String
  Description : String
  Generation : Int
  Games : List Game
  deriving DecidableEq, Repr

/-! ## Machine integers -/

/-- The conversion `uint64(x)` of an `int64`. -/
def toUint64 (x : Int) : Nat :=
  (x % 2 ^ 64).toNat

/-- The result of an `int64` operation whose exact value is `x`: wrapped into
`[-2^63, 2^63)`. -/
def wrapInt64 (x : Int) : Int :=
  (x + 2 ^ 63) % 2 ^ 64 - 2 ^ 63

/-! ## The statistics accumulator -/

/-- The struct `datStats`. The histogram `h` is kept as the log of the values
handed to `RecordValue`, oldest first. -/
structure datStats where
  h : List Int
  nRoms : Int
  nDats : Int
  nGames : Int
  totalSize : Nat
  nRomsBelow4k : Int
  deriving DecidableEq, Repr

/-- The accumulator `&datStats{h: hdrhistogram.New(...)}` created by the job. -/
def datStats.fresh : datStats :=
  { h := [], nRoms := 0, nDats := 0, nGames := 0, totalSize := 0, nRomsBelow4k := 0 }

/-- The body of the innermost loop of the visitor, for one rom. -/
def recordRom (dts : datStats) (r : Rom) : datStats :=
  let dts := { dts with h := dts.h ++ [r.Size] }
  let dts := { dts with nRoms := dts.nRoms + 1 }
  let dts := { dts with totalSize := (dts.totalSize + toUint64 r.Size) % 2 ^ 64 }
  if r.Size ≤ 4000 then { dts with nRomsBelow4k := dts.nRomsBelow4k + 1 } else dts

/-- The body of the loop over `dedat.Games`, for one game. -/
def recordGame (dts : datStats) (g : Game) : datStats :=
  g.Roms.foldl recordRom { dts with nGames := dts.nGames + 1 }

/-- The part of the visitor that runs for an accepted dat. -/
def recordDat (dts : datStats) (dedat : Dat) : datStats :=
  dedat.Games.foldl recordGame { dts with nDats := dts.nDats + 1 }

/-! ## Progress tracker -/

/-- The counters of a progress snapshot. -/
structure Progress where
  TotalFiles : Nat
  FilesSoFar : Nat
  TotalBytes : Nat
  BytesSoFar : Nat
  deriving DecidableEq, Repr

/-- Modelled from the spec: the progress tracker's `Reset` (package `worker`, not
among the sources) zeroes all counters. -/
def Progress.Reset : Progress :=
  { TotalFiles := 0, FilesSoFar := 0, TotalBytes := 0, BytesSoFar := 0 }

/-- Modelled from the spec: the progress tracker's `DeclareFile` (package `worker`,
not among the sources) registers one more unit of work. -/
def Progress.DeclareFile (p : Progress) (_name : String) : Progress :=
  { p with TotalFiles := p.TotalFiles + 1 }

/-! ## The report -/

/-- One `hdrhistogram.Bracket` of a cumulative distribution. `Quantile` is only
copied into the report. -/
structure Bracket where
  Quantile : Rat
  Count : Int
  ValueAt : Int
  deriving DecidableEq, Repr, Inhabited

/-- A line of the cumulative table: count, percentile, formatted file size. -/
structure CumulativeRow where
  count : Int
  quantile : Rat
  size : String
  deriving DecidableEq, Repr

/-- A line of the histogram table: count, formatted file size. -/
structure HistogramRow where
  count : Int
  size : String
  deriving DecidableEq, Repr

/-- The line the cumulative loop prints for bracket `b`. -/
def cumulativeRow (ibytes : Nat → String) (b : Bracket) : CumulativeRow :=
  { count := b.Count, quantile := b.Quantile, size := ibytes (toUint64 b.ValueAt) }

/-- The condition under which the cumulative loop prints row `i`, as written in
the source. -/
def cumulativePrints (ibytes : Nat → String) (bs : List Bracket) (i : Nat) : Bool :=
  let b := bs.getD i default
  let vstr := ibytes (toUint64 b.ValueAt)
  (decide ((i : Int) < (bs.length : Int) - 1)
      && vstr != ibytes (toUint64 (bs.getD (i + 1) default).ValueAt))
    || decide ((i : Int) = (bs.length : Int) - 1)

/-- The loop `for i := 0; i < len(bs); i++` of the cumulative table, started at
index `i` with `fuel` iterations allowed. -/
def cumulativeFrom (ibytes : Nat → String) (bs : List Bracket) : Nat → Nat → List CumulativeRow
  | 0, _ => []
  | fuel + 1, i =>
    if i < bs.length then
      (if cumulativePrints ibytes bs i then [cumulativeRow ibytes (bs.getD i default)] else [])
        ++ cumulativeFrom ibytes bs fuel (i + 1)
    else []

/-- The lines of the cumulative table: the loop runs `len(bs)` times. -/
def cumulativeLoop (ibytes : Nat → String) (bs : List Bracket) : List CumulativeRow :=
  cumulativeFrom ibytes bs bs.length 0

/-- One iteration of the histogram loop: the state is `lastCount` and the lines
printed so far. -/
def histogramStep (ibytes : Nat → String) (st : Int × List HistogramRow) (b : Bracket) :
    Int × List HistogramRow :=
  let count := wrapInt64 (b.Count - st.1)
  let out := if count > 0 then st.2 ++ [{ count := count, size := ibytes (toUint64 b.ValueAt) }]
             else st.2
  (b.Count, out)

/-- The lines of the histogram table: `for _, b := range bs` with `lastCount`
starting at zero. -/
def histogramLoop (ibytes : Nat → String) (bs : List Bracket) : List HistogramRow :=
  (bs.foldl (histogramStep ibytes) (0, [])).2

/-- The content of `msgBuffer` at the end of a completed job. -/
structure Report where
  nDats : Int
  nGames : Int
  nRoms : Int
  totalSize : String
  nRomsBelow4k : Int
  cumulative : List CumulativeRow
  histogram : List HistogramRow
  deriving DecidableEq, Repr

/-- The message argument of `broadCastProgress`. -/
inductive Msg where
  | text (s : String)
  | report (r : Report)
  deriving DecidableEq, Repr

/-! ## The environment of the job -/

/-- What the job gets from outside `service/stats.go`.

* `NewLevelDBDeduper`: the error of `dedup.NewLevelDBDeduper()`, `none` on success.
* `Dedup seen dat`: the result of `dedup.Dedup(dat, deduper)` when `seen` are the
  dats handed to the deduper before, oldest first (the deduper is stateful).
* `Generation`: the value of `rs.romDB.Generation()`.
* `dats`, `iterErr`: `rs.romDB.ForEachDat` hands the dats of `dats` to the visitor
  in order and, when the visitor accepted them all, returns `iterErr`.
* `CumulativeDistribution h`: the result of `h.CumulativeDistribution()` of a
  histogram on which `RecordValue` was called with the values `h`.
* `IBytes`: the function `humanize.IBytes`. -/
structure Env where
  NewLevelDBDeduper : Option String
  Dedup : List Dat → Dat → Except String (Option Dat)
  Generation : Int
  dats : List Dat
  iterErr : Option String
  CumulativeDistribution : List Int → List Bracket
  IBytes : Nat → String

/-! ## The job guard and the start request -/

/-- The fields of `RombaService` that `datstats` uses: the job guard (`busy`,
`jobName`) and the progress tracker. -/
structure RombaService where
  busy : Bool
  jobName : String
  pt : Progress
  deriving DecidableEq, Repr

/-- What a start request does besides changing the service: it either writes the
"still busy" line, built from the job name and the progress snapshot, or launches
the job goroutine. -/
inductive StartResult where
  | stillBusy (jobName : String) (p : Progress)
  | launched
  deriving DecidableEq, Repr

/-- The synchronous part of `RombaService.datstats`, run under `jobMutex`. -/
def datstats (rs : RombaService) : RombaService × StartResult :=
  if rs.busy then
    let p := rs.pt
    (rs, StartResult.stillBusy rs.jobName p)
  else
    let rs := { rs with pt := Progress.Reset }
    let rs := { rs with busy := true }
    let rs := { rs with jobName := "datstats" }
    (rs, StartResult.launched)

/-- What reaches the guarded service state while no job releases the guard: a
start request, or the running job declaring a file to the progress tracker. -/
inductive GuardOp where
  | request
  | declareFile (name : String)
  deriving DecidableEq, Repr

/-- Runs a sequence of operations on the service; returns the final state and the
number of jobs launched. -/
def runGuardOps : List GuardOp → RombaService → RombaService × Nat
  | [], rs => (rs, 0)
  | GuardOp.request :: ops, rs =>
    let r := datstats rs
    let rest := runGuardOps ops r.1
    (rest.1, (if r.2 = StartResult.launched then 1 else 0) + rest.2)
  | GuardOp.declareFile name :: ops, rs =>
    runGuardOps ops { rs with pt := rs.pt.DeclareFile name }

/-! ## The visitor -/

/-- The state the visitor closure works on: the progress tracker, the accumulator
and the dats the deduper has been given. -/
structure ScanState where
  pt : Progress
  dts : datStats
  seen : List Dat
  deriving DecidableEq, Repr

/-- The closure passed to `ForEachDat`: the new state and the returned error
(`none` is `nil`). -/
def visit (env : Env) (st : ScanState) (dat : Dat) : ScanState × Option String :=
  let st := { st with pt := st.pt.DeclareFile dat.Name }
  if dat.Generation ≠ env.Generation then
    (st, none)
  else
    match env.Dedup st.seen dat with
    | Except.error e => ({ st with seen := st.seen ++ [dat] }, some e)
    | Except.ok none => ({ st with seen := st.seen ++ [dat] }, none)
    | Except.ok (some dedat) =>
      ({ st with seen := st.seen ++ [dat], dts := recordDat st.dts dedat }, none)

/-- The call `rs.romDB.ForEachDat(visitor)` over the dats `ds`: stops at the first
error of the visitor, returns the store's own error at the end. -/
def forEachDat (env : Env) : List Dat → ScanState → ScanState × Option String
  | [], st => (st, env.iterErr)
  | d :: ds, st =>
    match visit env st d with
    | (st, some e) => (st, some e)
    | (st, none) => forEachDat env ds st

/-- The report written into `msgBuffer` from the accumulator. -/
def makeReport (env : Env) (dts : datStats) : Report :=
  let bs := env.CumulativeDistribution dts.h
  { nDats := dts.nDats
    nGames := dts.nGames
    nRoms := dts.nRoms
    totalSize := env.IBytes dts.totalSize
    nRomsBelow4k := dts.nRomsBelow4k
    cumulative := cumulativeLoop env.IBytes bs
    histogram := histogramLoop env.IBytes bs }

/-! ## The job goroutine, the ticker and the broadcaster -/

/-- What an observer of a job sees, in order. -/
inductive Event where
  | broadcast (starting stopping : Bool) (msg : Msg) (err : Option String)
  | declareFile (name : String)
  | tickerStop
  | stopSignal
  | guardReleased
  deriving DecidableEq, Repr

/-- Where the job goroutine stands. -/
inductive PC where
  | start
  | spawn
  | newDeduper
  | forEachDat
  | failed
  | report
  | tickerStop
  | stopSignal
  | release
  | finish
  | done
  deriving DecidableEq, Repr

/-- The state of a launched job: the service, the job goroutine's position and
locals, the ticker (`ticker` running, `tick` a value waiting in `ticker.C`), the
broadcaster goroutine (`broadcaster` alive) and the events so far. -/
structure World where
  rs : RombaService
  pc : PC
  ticker : Bool
  tick : Bool
  broadcaster : Bool
  dts : datStats
  seen : List Dat
  rest : List Dat
  err : Option String
  msg : Msg
  trace : List Event
  deriving DecidableEq, Repr

/-- The state right after a start request launched the job. -/
def World.launch (rs : RombaService) : World :=
  { rs := rs, pc := PC.start, ticker := false, tick := false, broadcaster := false,
    dts := datStats.fresh, seen := [], rest := [], err := none, msg := Msg.text "",
    trace := [] }

/-- The three concurrent actors. -/
inductive Actor where
  | job
  | timer
  | broadcaster
  deriving DecidableEq, Repr

/-- One step of the job goroutine, statement by statement: the start snapshot, the
ticker and the broadcaster goroutine, the deduper, the visitor once per dat, the
error branches (snapshot, then `return`), the report, `ticker.Stop()`, the send on
`stopTicker` (taken only by a live broadcaster), the release of the guard under
`jobMutex`, the terminal snapshot. Logging and the deferred `deduper.Close()` leave
no trace in this state. -/
def jobStep (env : Env) (w : World) : World :=
  match w.pc with
  | PC.start =>
    { w with trace := w.trace ++ [Event.broadcast true false (Msg.text "") none],
             pc := PC.spawn }
  | PC.spawn =>
    { w with ticker := true, broadcaster := true, pc := PC.newDeduper }
  | PC.newDeduper =>
    match env.NewLevelDBDeduper with
    | some e => { w with err := some e, pc := PC.failed }
    | none => { w with dts := datStats.fresh, seen := [], rest := env.dats, pc := PC.forEachDat }
  | PC.forEachDat =>
    match w.rest with
    | [] =>
      match env.iterErr with
      | some e => { w with err := some e, pc := PC.failed }
      | none => { w with pc := PC.report }
    | d :: ds =>
      let r := visit env { pt := w.rs.pt, dts := w.dts, seen := w.seen } d
      let w := { w with rs := { w.rs with pt := r.1.pt }, dts := r.1.dts, seen := r.1.seen,
                        rest := ds, trace := w.trace ++ [Event.declareFile d.Name] }
      match r.2 with
      | some e => { w with err := some e, pc := PC.failed }
      | none => w
  | PC.failed =>
    { w with trace := w.trace ++
               [Event.broadcast false true (Msg.text "error collecting datstats") w.err],
             pc := PC.done }
  | PC.report =>
    { w with msg := Msg.report (makeReport env w.dts), pc := PC.tickerStop }
  | PC.tickerStop =>
    { w with ticker := false, trace := w.trace ++ [Event.tickerStop], pc := PC.stopSignal }
  | PC.stopSignal =>
    if w.broadcaster then
      { w with broadcaster := false, trace := w.trace ++ [Event.stopSignal], pc := PC.release }
    else w
  | PC.release =>
    { w with rs := { w.rs with busy := false, jobName := "" },
             trace := w.trace ++ [Event.guardReleased], pc := PC.finish }
  | PC.finish =>
    { w with trace := w.trace ++ [Event.broadcast false true w.msg w.err], pc := PC.done }
  | PC.done => w

/-- The ticker fires: a value is put into `ticker.C` (a tick that finds the
channel full is dropped). -/
def timerStep (w : World) : World :=
  if w.ticker then { w with tick := true } else w

/-- The broadcaster goroutine takes a tick from `ticker.C` and broadcasts. -/
def broadcasterStep (w : World) : World :=
  if w.broadcaster && w.tick then
    { w with tick := false,
             trace := w.trace ++ [Event.broadcast false false (Msg.text "") none] }
  else w

/-- One step of the chosen actor; an actor that cannot move leaves the state as
it is. -/
def step (env : Env) (w : World) : Actor → World
  | Actor.job => jobStep env w
  | Actor.timer => timerStep w
  | Actor.broadcaster => broadcasterStep w

/-- Runs a schedule. -/
def exec (env : Env) (sched : List Actor) (w : World) : World :=
  sched.foldl (step env) w

/-- The job goroutine has returned. -/
def World.returned (w : World) : Bool :=
  w.pc = PC.done

/-- A terminal snapshot: a broadcast with the stopping flag set. -/
def Event.isTerminal : Event → Bool
  | Event.broadcast _ stopping _ _ => stopping
  | _ => false

/-! ## Vocabulary for the properties -/

/-- The runes a `range` over the string yields. -/
def runesOf (s : List Nat) : List Int :=
  rangeRunes s.length s

/-- A Unicode scalar value. -/
def validRune (r : Int) : Prop :=
  0 ≤ r ∧ r ≤ 0x10FFFF ∧ ¬ (0xD800 ≤ r ∧ r ≤ 0xDFFF)

/-- The UTF-8 encoding of a sequence of runes. -/
def encodeAll (rs : List Int) : List Nat :=
  (rs.map encodeRune).flatten

/-- No decoding step within `fuel` iterations replaces an invalid byte. -/
def validString : Nat → List Nat → Bool
  | 0, s => s.isEmpty
  | _ + 1, [] => true
  | fuel + 1, b :: bs =>
    if (decodeRune (b :: bs)).1 = RuneError ∧ (decodeRune (b :: bs)).2 = 1 then false
    else validString fuel ((b :: bs).drop (decodeRune (b :: bs)).2)

/-- The function `utf8.ValidString`: the string is well-formed UTF-8. -/
def validUTF8 (s : List Nat) : Bool :=
  validString s.length s

/-- The formatted `ValueAt` of row `i`: `humanize.IBytes(uint64(bs[i].ValueAt))`. -/
def formattedValueAt (ibytes : Nat → String) (bs : List Bracket) (i : Nat) : String :=
  ibytes (toUint64 (bs.getD i default).ValueAt)

/-- The discrete counts as the spec words them: for each row of the cumulative
distribution, its count minus the count of the row before (`prev` for the first
row), paired with the row. -/
def discreteCounts : Int → List Bracket → List (Int × Bracket)
  | _, [] => []
  | prev, b :: bs => (b.Count - prev, b) :: discreteCounts b.Count bs

/-- The line of the histogram table for a discrete count. -/
def histogramRow (ibytes : Nat → String) (p : Int × Bracket) : HistogramRow :=
  { count := p.1, size := ibytes (toUint64 p.2.ValueAt) }

/-- The dats a scan of `ds` accepts, as the spec words it: those of the current
generation that the deduper, having seen `seen`, maps to a dat, in the
deduplicated form it returns. -/
def accepted (env : Env) : List Dat → List Dat → List Dat
  | [], _ => []
  | d :: ds, seen =>
    if d.Generation ≠ env.Generation then accepted env ds seen
    else
      match env.Dedup seen d with
      | Except.ok (some dedat) => dedat :: accepted env ds (seen ++ [d])
      | _ => accepted env ds (seen ++ [d])

/-- All roms of a list of dats, in visiting order. -/
def romsOf (ds : List Dat) : List Rom :=
  (ds.map fun d => (d.Games.map fun g => g.Roms).flatten).flatten

/-- The whole iteration of a job launched on service state `rs`. -/
def scan (env : Env) (rs : RombaService) : ScanState × Option String :=
  forEachDat env env.dats { pt := rs.pt, dts := datStats.fresh, seen := [] }

/-- The names of the dats visited so far, read off the trace. -/
def declaredNames (tr : List Event) : List String :=
  tr.filterMap fun e =>
    match e with
    | Event.declareFile name => some name
    | _ => none

/-- An event that is neither a terminal snapshot nor the release of the guard. -/
def Event.early : Event → Bool
  | Event.broadcast _ stopping _ _ => !stopping
  | Event.guardReleased => false
  | _ => true

/-- The job went through the whole iteration without an error: it is past
`ForEachDat` on the path that ends with the report. -/
def World.scanned (w : World) : Bool :=
  match w.pc with
  | PC.report | PC.tickerStop | PC.stopSignal | PC.release | PC.finish => true
  | PC.done => w.err.isNone
  | _ => false

/-- The job completed: the goroutine returned and no error was raised. -/
def World.completed (w : World) : Bool :=
  w.returned && w.err.isNone

/-- The position in the trace of the first event satisfying `p`, if any. -/
def firstIndex (p : Event → Bool) (tr : List Event) : Option Nat :=
  if tr.findIdx p < tr.length then some (tr.findIdx p) else none

/-- The trace has a terminal snapshot and a release of the guard, and the first
terminal snapshot comes strictly before the first release. -/
def terminalBeforeRelease (tr : List Event) : Bool :=
  match firstIndex Event.isTerminal tr, firstIndex (fun e => e == Event.guardReleased) tr with
  | some i, some j => decide (i < j)
  | _, _ => false

/-- An upper bound on the steps the job goroutine still has to take. -/
def stepsLeft (env : Env) (w : World) : Nat :=
  match w.pc with
  | PC.start => env.dats.length + 9
  | PC.spawn => env.dats.length + 8
  | PC.newDeduper => env.dats.length + 7
  | PC.forEachDat => w.rest.length + 6
  | PC.report => 5
  | PC.tickerStop => 4
  | PC.stopSignal => 3
  | PC.release => 2
  | PC.finish => 1
  | PC.failed => 1
  | PC.done => 0

/-- The invariant of a job launched on service state `rs`. -/
def Inv (env : Env) (rs : RombaService) (w : World) : Prop :=
  match w.pc with
  | PC.start | PC.spawn =>
    w.rs = rs ∧ w.err = none ∧ (∀ e ∈ w.trace, e.early = true) ∧ declaredNames w.trace = []
  | PC.newDeduper =>
    w.rs = rs ∧ w.err = none ∧ (∀ e ∈ w.trace, e.early = true) ∧ declaredNames w.trace = []
      ∧ w.broadcaster = true ∧ w.ticker = true
  | PC.forEachDat =>
    w.rs.busy = rs.busy ∧ w.rs.jobName = rs.jobName ∧ w.err = none
      ∧ (∀ e ∈ w.trace, e.early = true)
      ∧ declaredNames w.trace ++ w.rest.map (fun d => d.Name) = env.dats.map (fun d => d.Name)
      ∧ w.broadcaster = true ∧ w.ticker = true
      ∧ forEachDat env w.rest { pt := w.rs.pt, dts := w.dts, seen := w.seen } = scan env rs
  | PC.failed =>
    w.rs.busy = rs.busy ∧ w.rs.jobName = rs.jobName ∧ w.err ≠ none
      ∧ w.broadcaster = true ∧ w.ticker = true
  | PC.report =>
    w.rs.busy = rs.busy ∧ w.rs.jobName = rs.jobName ∧ w.err = none
      ∧ (∀ e ∈ w.trace, e.early = true)
      ∧ declaredNames w.trace = env.dats.map (fun d => d.Name)
      ∧ w.broadcaster = true
      ∧ scan env rs = ({ pt := w.rs.pt, dts := w.dts, seen := w.seen }, none)
  | PC.tickerStop | PC.stopSignal =>
    w.rs.busy = rs.busy ∧ w.rs.jobName = rs.jobName ∧ w.err = none
      ∧ (∀ e ∈ w.trace, e.early = true)
      ∧ declaredNames w.trace = env.dats.map (fun d => d.Name)
      ∧ w.broadcaster = true
      ∧ scan env rs = ({ pt := w.rs.pt, dts := w.dts, seen := w.seen }, none)
      ∧ w.msg = Msg.report (makeReport env w.dts)
  | PC.release =>
    w.rs.busy = rs.busy ∧ w.rs.jobName = rs.jobName ∧ w.err = none
      ∧ (∀ e ∈ w.trace, e.early = true)
      ∧ declaredNames w.trace = env.dats.map (fun d => d.Name)
      ∧ w.broadcaster = false
      ∧ scan env rs = ({ pt := w.rs.pt, dts := w.dts, seen := w.seen }, none)
      ∧ w.msg = Msg.report (makeReport env w.dts)
  | PC.finish =>
    w.rs.busy = false ∧ w.rs.jobName = "" ∧ w.err = none
      ∧ (∃ pre, w.trace = pre ++ [Event.guardReleased] ∧ (∀ e ∈ pre, e.early = true)
          ∧ declaredNames pre = env.dats.map (fun d => d.Name))
      ∧ w.broadcaster = false
      ∧ scan env rs = ({ pt := w.rs.pt, dts := w.dts, seen := w.seen }, none)
      ∧ w.msg = Msg.report (makeReport env w.dts)
  | PC.done =>
    (w.err = none →
      w.rs.busy = false ∧ w.rs.jobName = ""
      ∧ (∃ pre, w.trace = pre ++ [Event.guardReleased,
            Event.broadcast false true (Msg.report (makeReport env w.dts)) none]
          ∧ (∀ e ∈ pre, e.early = true)
          ∧ declaredNames pre = env.dats.map (fun d => d.Name))
      ∧ w.broadcaster = false
      ∧ scan env rs = ({ pt := w.rs.pt, dts := w.dts, seen := w.seen }, none))
    ∧ (w.err ≠ none →
      w.rs.busy = rs.busy ∧ w.rs.jobName = rs.jobName ∧ w.broadcaster = true ∧ w.ticker = true
      ∧ ∃ e ∈ w.trace, e.isTerminal = true)

/-- The accumulator `dts` is `base` after `dats` more dats with `games` games in
all and the roms `roms` were recorded. -/
def Accumulated (base dts : datStats) (dats games : Nat) (roms : List Rom) : Prop :=
  dts.h = base.h ++ roms.map (fun r => r.Size)
  ∧ dts.nRoms = base.nRoms + roms.length
  ∧ dts.nDats = base.nDats + dats
  ∧ dts.nGames = base.nGames + games
  ∧ dts.totalSize = (base.totalSize + (roms.map fun r => toUint64 r.Size).sum) % 2 ^ 64
  ∧ dts.nRomsBelow4k = base.nRomsBelow4k + (roms.filter fun r => r.Size ≤ 4000).length

/-- What holds all along a job on a store without dats whose deduper starts and
whose iteration raises no error. -/
def EmptyStoreInv (w : World) : Prop :=
  w.err = none ∧ w.pc ≠ PC.failed ∧ w.rest = [] ∧ w.dts = datStats.fresh

/-! ## Concrete stores and services -/

/-- A dat of the current generation with one game and five roms of sizes
100, 100, 4000, 4001 and 1000000. -/
def exampleDat : Dat :=
  { Name := "arcade", Description := "arcade set", Generation := 1,
    Games := [{ Name := "pong", Description := "pong",
                Roms := [⟨"a", 100⟩, ⟨"b", 100⟩, ⟨"c", 4000⟩, ⟨"d", 4001⟩, ⟨"e", 1000000⟩] }] }

/-- A dat of an older generation. -/
def staleDat : Dat :=
  { Name := "old", Description := "old", Generation := 0,
    Games := [{ Name := "tetris", Description := "tetris", Roms := [⟨"t", 7⟩] }] }

/-- A stand-in for `humanize.IBytes` with three outputs. -/
def exampleIBytes (n : Nat) : String :=
  if n = 0 then "0 B" else if n < 1024 then "under 1 KiB" else "1 KiB or more"

/-- A store with two dats, a deduper that accepts every dat as it is and a
histogram library whose cumulative distribution is always empty. -/
def exampleEnv : Env :=
  { NewLevelDBDeduper := none
    Dedup := fun _ d => Except.ok (some d)
    Generation := 1
    dats := [exampleDat, staleDat]
    iterErr := none
    CumulativeDistribution := fun _ => []
    IBytes := exampleIBytes }

/-- A store without dats. -/
def emptyStoreEnv : Env :=
  { exampleEnv with dats := [] }

/-- A store without dats, with a histogram library whose cumulative distribution
ends with a closing bracket at 100 percent also when nothing was recorded. -/
def closingBracketEnv : Env :=
  { exampleEnv with dats := [], CumulativeDistribution := fun _ => [⟨100, 0, 0⟩] }

/-- An environment in which the deduper cannot be created. -/
def brokenDeduperEnv : Env :=
  { exampleEnv with NewLevelDBDeduper := some "cannot open deduper" }

/-- An environment in which the deduper fails on the second dat it is given. -/
def failingDedupEnv : Env :=
  { exampleEnv with
    dats := [exampleDat, exampleDat]
    Dedup := fun seen d => if seen = [] then Except.ok (some d) else Except.error "dedup failed" }

/-- A service with a free job guard. -/
def idleService : RombaService :=
  { busy := false, jobName := "", pt := { TotalFiles := 3, FilesSoFar := 3, TotalBytes := 9, BytesSoFar := 9 } }

/-- The service right after a start request on `idleService`. -/
def acquiredService : RombaService :=
  (datstats idleService).1

/-! ## Properties of `omitQuote` -/

theorem decodeRune_cases (s0 : Nat) (rest : List Nat) :
    (s0 < 0x80 ∧ decodeRune (s0 :: rest) = ((s0 : Int), 1))
    ∨ (∃ s1 tl, rest = s1 :: tl ∧ 0xC2 ≤ s0 ∧ s0 < 0xE0 ∧ 0x80 ≤ s1 ∧ s1 ≤ 0xBF
        ∧ decodeRune (s0 :: rest) = (((s0 % 32 * 64 + s1 % 64 : Nat) : Int), 2))
    ∨ (∃ s1 s2 tl, rest = s1 :: s2 :: tl ∧ 0xE0 ≤ s0 ∧ s0 < 0xF0
        ∧ (if s0 = 0xE0 then 0xA0 else 0x80) ≤ s1 ∧ s1 ≤ (if s0 = 0xED then 0x9F else 0xBF)
        ∧ 0x80 ≤ s2 ∧ s2 ≤ 0xBF
        ∧ decodeRune (s0 :: rest)
            = (((s0 % 16 * 4096 + s1 % 64 * 64 + s2 % 64 : Nat) : Int), 3))
    ∨ (∃ s1 s2 s3 tl, rest = s1 :: s2 :: s3 :: tl ∧ 0xF0 ≤ s0 ∧ s0 < 0xF5
        ∧ (if s0 = 0xF0 then 0x90 else 0x80) ≤ s1 ∧ s1 ≤ (if s0 = 0xF4 then 0x8F else 0xBF)
        ∧ 0x80 ≤ s2 ∧ s2 ≤ 0xBF ∧ 0x80 ≤ s3 ∧ s3 ≤ 0xBF
        ∧ decodeRune (s0 :: rest)
            = (((s0 % 8 * 262144 + s1 % 64 * 4096 + s2 % 64 * 64 + s3 % 64 : Nat) : Int), 4))
    ∨ decodeRune (s0 :: rest) = (RuneError, 1) := by
  by_cases a1 : s0 < 0x80
  · left
    exact ⟨a1, by simp [decodeRune, a1]⟩
  by_cases a2 : s0 < 0xC2
  · right; right; right; right
    simp [decodeRune, a1, a2]
  by_cases a3 : s0 < 0xE0
  · cases rest with
    | nil => right; right; right; right; simp [decodeRune, a1, a2, a3]
    | cons s1 tl =>
      by_cases b : 0x80 ≤ s1 ∧ s1 ≤ 0xBF
      · right; left
        exact ⟨s1, tl, rfl, by omega, a3, b.1, b.2, by simp [decodeRune, a1, a2, a3, b]⟩
      · right; right; right; right
        simp [decodeRune, a1, a2, a3, b]
  by_cases a4 : s0 < 0xF0
  · rcases rest with _ | ⟨s1, _ | ⟨s2, tl⟩⟩
    · right; right; right; right; simp [decodeRune, a1, a2, a3, a4]
    · right; right; right; right; simp [decodeRune, a1, a2, a3, a4]
    · by_cases b : (if s0 = 0xE0 then 0xA0 else 0x80) ≤ s1
          ∧ s1 ≤ (if s0 = 0xED then 0x9F else 0xBF)
      · by_cases c : 0x80 ≤ s2 ∧ s2 ≤ 0xBF
        · right; right; left
          exact ⟨s1, s2, tl, rfl, by omega, a4, b.1, b.2, c.1, c.2,
            by simp only [decodeRune, a1, a2, a3, a4, b, c, if_true, if_false, and_self]⟩
        · right; right; right; right
          simp only [decodeRune, a1, a2, a3, a4, b, c, if_true, if_false, and_self]
      · right; right; right; right
        simp only [decodeRune, a1, a2, a3, a4, b, if_true, if_false]
  by_cases a5 : s0 < 0xF5
  · rcases rest with _ | ⟨s1, _ | ⟨s2, _ | ⟨s3, tl⟩⟩⟩
    · right; right; right; right; simp [decodeRune, a1, a2, a3, a4, a5]
    · right; right; right; right; simp [decodeRune, a1, a2, a3, a4, a5]
    · right; right; right; right; simp [decodeRune, a1, a2, a3, a4, a5]
    · by_cases b : (if s0 = 0xF0 then 0x90 else 0x80) ≤ s1
          ∧ s1 ≤ (if s0 = 0xF4 then 0x8F else 0xBF)
      · by_cases c : 0x80 ≤ s2 ∧ s2 ≤ 0xBF
        · by_cases d : 0x80 ≤ s3 ∧ s3 ≤ 0xBF
          · right; right; right; left
            exact ⟨s1, s2, s3, tl, rfl, by omega, a5, b.1, b.2, c.1, c.2, d.1, d.2,
              by simp only [decodeRune, a1, a2, a3, a4, a5, b, c, d, if_true, if_false,
                and_self]⟩
          · right; right; right; right
            simp only [decodeRune, a1, a2, a3, a4, a5, b, c, d, if_true, if_false, and_self]
        · right; right; right; right
          simp only [decodeRune, a1, a2, a3, a4, a5, b, c, if_true, if_false, and_self]
      · right; right; right; right
        simp only [decodeRune, a1, a2, a3, a4, a5, b, if_true, if_false]
  · right; right; right; right
    simp [decodeRune, a1, a2, a3, a4, a5]

theorem validRune_RuneError : validRune RuneError := by
  unfold validRune RuneError
  omega

theorem decodeRune_valid (s : List Nat) : validRune (decodeRune s).1 := by
  cases s with
  | nil => exact validRune_RuneError
  | cons s0 rest =>
    rcases decodeRune_cases s0 rest with ⟨h, e⟩ | ⟨s1, tl, _, h1, h2, h3, h4, e⟩
      | ⟨s1, s2, tl, _, h1, h2, h3, h4, h5, h6, e⟩
      | ⟨s1, s2, s3, tl, _, h1, h2, h3, h4, h5, h6, h7, h8, e⟩ | e
    · rw [e]; unfold validRune; simp only; omega
    · rw [e]; unfold validRune; simp only; omega
    · have g3 : 0x80 ≤ s1 ∧ (s0 ≠ 0xE0 ∨ 0xA0 ≤ s1) := by split at h3 <;> omega
      have g4 : s1 ≤ 0xBF ∧ (s0 ≠ 0xED ∨ s1 ≤ 0x9F) := by split at h4 <;> omega
      clear h3 h4
      rw [e]; unfold validRune; simp only
      omega
    · have g3 : 0x80 ≤ s1 ∧ (s0 ≠ 0xF0 ∨ 0x90 ≤ s1) := by split at h3 <;> omega
      have g4 : s1 ≤ 0xBF ∧ (s0 ≠ 0xF4 ∨ s1 ≤ 0x8F) := by split at h4 <;> omega
      clear h3 h4
      rw [e]; unfold validRune; simp only
      omega
    · rw [e]; exact validRune_RuneError

theorem decodeRune_width (s0 : Nat) (rest : List Nat) :
    1 ≤ (decodeRune (s0 :: rest)).2 ∧ (decodeRune (s0 :: rest)).2 ≤ (s0 :: rest).length := by
  rcases decodeRune_cases s0 rest with ⟨h, e⟩ | ⟨s1, tl, hr, h1, h2, h3, h4, e⟩
    | ⟨s1, s2, tl, hr, h1, h2, h3, h4, h5, h6, e⟩
    | ⟨s1, s2, s3, tl, hr, h1, h2, h3, h4, h5, h6, h7, h8, e⟩ | e
  all_goals (rw [e]; simp [*])

/-- A decoding step that is not the replacement of an invalid byte reads exactly
the bytes that encode its rune. -/
theorem encode_decode (s0 : Nat) (rest : List Nat)
    (h : ¬ ((decodeRune (s0 :: rest)).1 = RuneError ∧ (decodeRune (s0 :: rest)).2 = 1)) :
    encodeRune (decodeRune (s0 :: rest)).1 = (s0 :: rest).take (decodeRune (s0 :: rest)).2 := by
  rcases decodeRune_cases s0 rest with ⟨h0, e⟩ | ⟨s1, tl, hr, h1, h2, h3, h4, e⟩
    | ⟨s1, s2, tl, hr, h1, h2, h3, h4, h5, h6, e⟩
    | ⟨s1, s2, s3, tl, hr, h1, h2, h3, h4, h5, h6, h7, h8, e⟩ | e
  · rw [e]
    have : ((s0 : Int) ≤ 127) := by omega
    simp [encodeRune, this]
  · rw [e, hr]
    clear h e
    have a1 : ¬ (((s0 % 32 * 64 + s1 % 64 : Nat) : Int) ≤ 127) := by omega
    have a2 : (((s0 % 32 * 64 + s1 % 64 : Nat) : Int) ≤ 2047) := by omega
    simp only [encodeRune, a1, a2, and_false, if_false, Int.toNat_ofNat, List.take,
      Int.ofNat_zero_le, and_self, if_true, Nat.cast_ofNat, Int.ofNat_nonneg]
    simp only [Int.natCast_nonneg, and_self, if_true, List.cons.injEq, and_true]
    constructor <;> omega
  · rw [e, hr]
    clear h e
    have g3 : 0x80 ≤ s1 ∧ (s0 ≠ 0xE0 ∨ 0xA0 ≤ s1) := by split at h3 <;> omega
    have g4 : s1 ≤ 0xBF ∧ (s0 ≠ 0xED ∨ s1 ≤ 0x9F) := by split at h4 <;> omega
    clear h3 h4
    have a1 : ¬ (((s0 % 16 * 4096 + s1 % 64 * 64 + s2 % 64 : Nat) : Int) ≤ 127) := by omega
    have a2 : ¬ (((s0 % 16 * 4096 + s1 % 64 * 64 + s2 % 64 : Nat) : Int) ≤ 2047) := by omega
    have a3 : ¬ ((((s0 % 16 * 4096 + s1 % 64 * 64 + s2 % 64 : Nat) : Int) < 0)
        ∨ (1114111 < ((s0 % 16 * 4096 + s1 % 64 * 64 + s2 % 64 : Nat) : Int))
        ∨ ((55296 ≤ ((s0 % 16 * 4096 + s1 % 64 * 64 + s2 % 64 : Nat) : Int))
            ∧ (((s0 % 16 * 4096 + s1 % 64 * 64 + s2 % 64 : Nat) : Int) ≤ 57343))) := by
      omega
    have a4 : (((s0 % 16 * 4096 + s1 % 64 * 64 + s2 % 64 : Nat) : Int) ≤ 65535) := by omega
    simp only [encodeRune, a1, a2, a3, a4, and_false, if_false, if_true, Int.toNat_ofNat,
      List.take, List.cons.injEq, and_true]
    refine ⟨?_, ?_, ?_⟩ <;> omega
  · rw [e, hr]
    clear h e
    have g3 : 0x80 ≤ s1 ∧ (s0 ≠ 0xF0 ∨ 0x90 ≤ s1) := by split at h3 <;> omega
    have g4 : s1 ≤ 0xBF ∧ (s0 ≠ 0xF4 ∨ s1 ≤ 0x8F) := by split at h4 <;> omega
    clear h3 h4
    have a1 : ¬ (((s0 % 8 * 262144 + s1 % 64 * 4096 + s2 % 64 * 64 + s3 % 64 : Nat) : Int)
        ≤ 127) := by omega
    have a2 : ¬ (((s0 % 8 * 262144 + s1 % 64 * 4096 + s2 % 64 * 64 + s3 % 64 : Nat) : Int)
        ≤ 2047) := by omega
    have a3 : ¬ ((((s0 % 8 * 262144 + s1 % 64 * 4096 + s2 % 64 * 64 + s3 % 64 : Nat) : Int) < 0)
        ∨ (1114111 < ((s0 % 8 * 262144 + s1 % 64 * 4096 + s2 % 64 * 64 + s3 % 64 : Nat) : Int))
        ∨ ((55296 ≤ ((s0 % 8 * 262144 + s1 % 64 * 4096 + s2 % 64 * 64 + s3 % 64 : Nat) : Int))
            ∧ (((s0 % 8 * 262144 + s1 % 64 * 4096 + s2 % 64 * 64 + s3 % 64 : Nat) : Int)
                ≤ 57343))) := by
      omega
    have a4 : ¬ (((s0 % 8 * 262144 + s1 % 64 * 4096 + s2 % 64 * 64 + s3 % 64 : Nat) : Int)
        ≤ 65535) := by omega
    simp only [encodeRune, a1, a2, a3, a4, and_false, if_false, if_true, Int.toNat_ofNat,
      List.take, List.cons.injEq, and_true]
    refine ⟨?_, ?_, ?_, ?_⟩ <;> omega
  · rw [e] at h
    exact absurd ⟨rfl, rfl⟩ h

/-- Reading back an encoded scalar value gives the value and the length of its
encoding. -/
theorem decode_encode (r : Int) (h : validRune r) (rest : List Nat) :
    decodeRune (encodeRune r ++ rest) = (r, (encodeRune r).length)
    ∧ 1 ≤ (encodeRune r).length := by
  obtain ⟨h0, h1, h2⟩ := h
  obtain ⟨n, rfl⟩ := Int.eq_ofNat_of_zero_le h0
  by_cases c1 : (n : Int) ≤ 0x7F
  · have e : encodeRune (n : Int) = [n] := by simp [encodeRune, c1]
    rw [e]
    have : n < 128 := by omega
    simp [decodeRune, this]
  by_cases c2 : (n : Int) ≤ 0x7FF
  · have e : encodeRune (n : Int) = [0xC0 + n / 64, 0x80 + n % 64] := by
      simp [encodeRune, c1, c2]
    rw [e]
    have a1 : ¬ (0xC0 + n / 64 < 0x80) := by omega
    have a2 : ¬ (0xC0 + n / 64 < 0xC2) := by omega
    have a3 : 0xC0 + n / 64 < 0xE0 := by omega
    have b : 0x80 ≤ 0x80 + n % 64 ∧ 0x80 + n % 64 ≤ 0xBF := by omega
    simp only [List.cons_append, List.nil_append, decodeRune, a1, a2, a3, b, if_true, if_false,
      and_self, List.length_cons, List.length_nil, Prod.mk.injEq, and_true]
    constructor <;> omega
  have c3 : ¬ ((n : Int) < 0 ∨ 0x10FFFF < (n : Int) ∨ (0xD800 ≤ (n : Int) ∧ (n : Int) ≤ 0xDFFF)) := by
    omega
  by_cases c4 : (n : Int) ≤ 0xFFFF
  · have e : encodeRune (n : Int)
        = [0xE0 + n / 4096, 0x80 + n / 64 % 64, 0x80 + n % 64] := by
      simp only [encodeRune, c1, c2, c3, c4, and_false, if_false, if_true, Int.toNat_ofNat]
    rw [e]
    have a1 : ¬ (0xE0 + n / 4096 < 0x80) := by omega
    have a2 : ¬ (0xE0 + n / 4096 < 0xC2) := by omega
    have a3 : ¬ (0xE0 + n / 4096 < 0xE0) := by omega
    have a4 : 0xE0 + n / 4096 < 0xF0 := by omega
    have b : (if 0xE0 + n / 4096 = 0xE0 then 0xA0 else 0x80) ≤ 0x80 + n / 64 % 64
        ∧ 0x80 + n / 64 % 64 ≤ (if 0xE0 + n / 4096 = 0xED then 0x9F else 0xBF) := by
      constructor <;> split <;> omega
    have c : 0x80 ≤ 0x80 + n % 64 ∧ 0x80 + n % 64 ≤ 0xBF := by omega
    simp only [List.cons_append, List.nil_append, decodeRune, a1, a2, a3, a4, b, c, if_true,
      if_false, and_self, List.length_cons, List.length_nil, Prod.mk.injEq, and_true]
    constructor <;> omega
  · have e : encodeRune (n : Int)
        = [0xF0 + n / 262144, 0x80 + n / 4096 % 64, 0x80 + n / 64 % 64, 0x80 + n % 64] := by
      simp only [encodeRune, c1, c2, c3, c4, and_false, if_false, if_true, Int.toNat_ofNat]
    rw [e]
    have a1 : ¬ (0xF0 + n / 262144 < 0x80) := by omega
    have a2 : ¬ (0xF0 + n / 262144 < 0xC2) := by omega
    have a3 : ¬ (0xF0 + n / 262144 < 0xE0) := by omega
    have a4 : ¬ (0xF0 + n / 262144 < 0xF0) := by omega
    have a5 : 0xF0 + n / 262144 < 0xF5 := by omega
    have b : (if 0xF0 + n / 262144 = 0xF0 then 0x90 else 0x80) ≤ 0x80 + n / 4096 % 64
        ∧ 0x80 + n / 4096 % 64 ≤ (if 0xF0 + n / 262144 = 0xF4 then 0x8F else 0xBF) := by
      constructor <;> split <;> omega
    have c : 0x80 ≤ 0x80 + n / 64 % 64 ∧ 0x80 + n / 64 % 64 ≤ 0xBF := by omega
    have d : 0x80 ≤ 0x80 + n % 64 ∧ 0x80 + n % 64 ≤ 0xBF := by omega
    simp only [List.cons_append, List.nil_append, decodeRune, a1, a2, a3, a4, a5, b, c, d,
      if_true, if_false, and_self, List.length_cons, List.length_nil, Prod.mk.injEq, and_true]
    constructor <;> omega

/-- The encoding of a scalar value other than the double quote has no double-quote
byte. -/
theorem quote_not_mem_encodeRune (r : Int) (h : validRune r) (hq : r ≠ 34) :
    34 ∉ encodeRune r := by
  obtain ⟨h0, h1, h2⟩ := h
  obtain ⟨n, rfl⟩ := Int.eq_ofNat_of_zero_le h0
  unfold encodeRune
  split
  · simp only [Int.toNat_ofNat, List.mem_singleton]
    omega
  split
  · simp only [Int.toNat_ofNat, List.mem_cons, List.mem_singleton, List.not_mem_nil, or_false]
    omega
  split
  · decide
  split
  · simp only [Int.toNat_ofNat, List.mem_cons, List.mem_singleton, List.not_mem_nil, or_false]
    omega
  · simp only [Int.toNat_ofNat, List.mem_cons, List.mem_singleton, List.not_mem_nil, or_false]
    omega

theorem encodeRune_quote : encodeRune 34 = [34] := by decide

theorem encodeRune_byte (r : Int) : ∀ b ∈ encodeRune r, b < 256 := by
  intro b hb
  unfold encodeRune at hb
  split at hb
  · simp only [List.mem_singleton] at hb
    omega
  split at hb
  · simp only [List.mem_cons, List.mem_singleton, List.not_mem_nil, or_false] at hb
    omega
  split at hb
  · simp only [List.mem_cons, List.mem_singleton, List.not_mem_nil, or_false] at hb
    omega
  split at hb
  · simp only [List.mem_cons, List.mem_singleton, List.not_mem_nil, or_false] at hb
    omega
  · simp only [List.mem_cons, List.mem_singleton, List.not_mem_nil, or_false] at hb
    omega

theorem encodeAll_cons (r : Int) (rs : List Int) :
    encodeAll (r :: rs) = encodeRune r ++ encodeAll rs := by
  simp [encodeAll]

theorem rangeRunes_valid (fuel : Nat) (s : List Nat) : ∀ c ∈ rangeRunes fuel s, validRune c := by
  induction fuel generalizing s with
  | zero => simp [rangeRunes]
  | succ f ih =>
    cases s with
    | nil => simp [rangeRunes]
    | cons b bs =>
      intro c hc
      simp only [rangeRunes, List.mem_cons] at hc
      rcases hc with hc | hc
      · rw [hc]
        exact decodeRune_valid _
      · exact ih _ c hc

theorem rangeRunes_encodeAll (rs : List Int) (h : ∀ r ∈ rs, validRune r) (fuel : Nat)
    (hf : (encodeAll rs).length ≤ fuel) : rangeRunes fuel (encodeAll rs) = rs := by
  induction rs generalizing fuel with
  | nil => cases fuel <;> simp [encodeAll, rangeRunes]
  | cons r rs ih =>
    have hr : validRune r := h r (List.mem_cons_self _ _)
    have hd := decode_encode r hr (encodeAll rs)
    rw [encodeAll_cons] at hf ⊢
    rw [List.length_append] at hf
    cases fuel with
    | zero => omega
    | succ f =>
      cases he : encodeRune r with
      | nil => rw [he] at hd; simp at hd
      | cons b t =>
        rw [he] at hd hf
        have hstep : rangeRunes (f + 1) (b :: t ++ encodeAll rs)
            = (decodeRune (b :: t ++ encodeAll rs)).1
              :: rangeRunes f ((b :: t ++ encodeAll rs).drop
                  (decodeRune (b :: t ++ encodeAll rs)).2) := rfl
        rw [hstep, hd.1]
        simp only [List.drop_left]
        rw [ih (fun x hx => h x (List.mem_cons_of_mem _ hx)) f (by simp at hf; omega)]

theorem map_flatten_eq_encodeAll (l : List Int) (h : ∀ c ∈ l, validRune c) :
    (l.map fun c =>
        if omitQuoteMapping c < 0 then [] else encodeRune (omitQuoteMapping c)).flatten
      = encodeAll (l.filter fun c => c ≠ 34) := by
  induction l with
  | nil => simp [encodeAll]
  | cons c cs ih =>
    have hc : validRune c := h c (List.mem_cons_self _ _)
    have ih' := ih (fun x hx => h x (List.mem_cons_of_mem _ hx))
    simp only [List.map_cons, List.flatten_cons, ih']
    by_cases hq : c = 34
    · subst hq
      simp [omitQuoteMapping]
    · have hn : ¬ (c < 0) := by
        have := hc.1
        omega
      simp [omitQuoteMapping, hq, hn, encodeAll_cons]

theorem omitQuote_eq (v : List Nat) :
    omitQuote v = encodeAll ((runesOf v).filter fun c => c ≠ 34) := by
  unfold omitQuote stringsMap runesOf
  exact map_flatten_eq_encodeAll _ (rangeRunes_valid _ _)

theorem filtered_valid (v : List Nat) :
    ∀ r ∈ (runesOf v).filter (fun c => c ≠ 34), validRune r ∧ r ≠ 34 := by
  intro r hr
  rw [List.mem_filter] at hr
  exact ⟨rangeRunes_valid _ _ r hr.1, by simpa using hr.2⟩

theorem quote_not_mem_encodeAll (rs : List Int) (h : ∀ r ∈ rs, validRune r ∧ r ≠ 34) :
    34 ∉ encodeAll rs := by
  induction rs with
  | nil => simp [encodeAll]
  | cons r rs ih =>
    rw [encodeAll_cons, List.mem_append]
    rintro (hm | hm)
    · exact quote_not_mem_encodeRune r (h r (List.mem_cons_self _ _)).1
        (h r (List.mem_cons_self _ _)).2 hm
    · exact ih (fun x hx => h x (List.mem_cons_of_mem _ hx)) hm

theorem runesOf_omitQuote (v : List Nat) :
    runesOf (omitQuote v) = (runesOf v).filter fun c => c ≠ 34 := by
  rw [omitQuote_eq]
  unfold runesOf
  exact rangeRunes_encodeAll _ (fun r hr => (filtered_valid v r hr).1) _ (le_refl _)

theorem validString_filter (fuel : Nat) (s : List Nat) (hf : s.length ≤ fuel)
    (hv : validString fuel s = true) :
    encodeAll ((rangeRunes fuel s).filter fun c => c ≠ 34) = s.filter fun b => b ≠ 34 := by
  induction fuel generalizing s with
  | zero =>
    cases s with
    | nil => simp [rangeRunes, encodeAll]
    | cons b bs => simp at hf
  | succ f ih =>
    cases s with
    | nil => simp [rangeRunes, encodeAll]
    | cons b bs =>
      have hw := decodeRune_width b bs
      simp only [validString] at hv
      split at hv
      · exact absurd hv (by simp)
      · rename_i hne
        have henc := encode_decode b bs hne
        have hrec := ih ((b :: bs).drop (decodeRune (b :: bs)).2)
          (by simp only [List.length_drop, List.length_cons] at hf ⊢; omega) hv
        have hsplit : (b :: bs)
            = (b :: bs).take (decodeRune (b :: bs)).2
                ++ (b :: bs).drop (decodeRune (b :: bs)).2 :=
          (List.take_append_drop _ _).symm
        have hstep : rangeRunes (f + 1) (b :: bs)
            = (decodeRune (b :: bs)).1
              :: rangeRunes f ((b :: bs).drop (decodeRune (b :: bs)).2) := rfl
        rw [hstep]
        conv_rhs => rw [hsplit]
        rw [List.filter_append, ← henc, ← hrec]
        by_cases hq : (decodeRune (b :: bs)).1 = 34
        · rw [hq, encodeRune_quote]
          simp
        · have hnm := quote_not_mem_encodeRune _ (decodeRune_valid (b :: bs)) hq
          have hfe : (encodeRune (decodeRune (b :: bs)).1).filter (fun b => b ≠ 34)
              = encodeRune (decodeRune (b :: bs)).1 := by
            rw [List.filter_eq_self]
            intro x hx
            have : x ≠ 34 := fun e => hnm (e ▸ hx)
            simpa using this
          rw [hfe]
          simp [hq, encodeAll_cons]

/-- C10, on concrete strings: the one-byte string `FF` has no double quote, yet
`omitQuote` returns the three bytes `EF BF BD` of U+FFFD instead of the string
itself; in the string of the letter a, a double quote and the byte `FF` the quote
is removed and the byte `FF` is not kept either. -/
theorem omitQuote_rewrites_invalid_byte :
    (34 : Nat) ∉ ([0xFF] : List Nat)
    ∧ omitQuote [0xFF] = [0xEF, 0xBF, 0xBD]
    ∧ omitQuote [0xFF] ≠ [0xFF]
    ∧ omitQuote [0x61, 0x22, 0xFF] = [0x61, 0xEF, 0xBF, 0xBD]
    ∧ omitQuote [0x61, 0x22, 0xFF] ≠ ([0x61, 0x22, 0xFF] : List Nat).filter (fun b => b ≠ 34) := by
  decide

/-- C10 as amended: for every string `v`, `omitQuote v` is a string of bytes
without a double-quote byte; it is the UTF-8 encoding of the runes of `v` other
than the double quote, in order, where an invalid byte of `v` counts as the rune
U+FFFD, so its runes are those of `v` with the double quotes removed; `omitQuote`
is idempotent. When `v` is valid UTF-8, `omitQuote v` is `v` with exactly its
double-quote bytes removed, and it is `v` itself when `v` has no double quote. -/
theorem omitQuote_removes_exactly_the_quotes (v : List Nat) :
    34 ∉ omitQuote v
    ∧ (∀ b ∈ omitQuote v, b < 256)
    ∧ omitQuote v = encodeAll ((runesOf v).filter fun c => c ≠ 34)
    ∧ runesOf (omitQuote v) = (runesOf v).filter (fun c => c ≠ 34)
    ∧ omitQuote (omitQuote v) = omitQuote v
    ∧ (validUTF8 v = true → omitQuote v = v.filter (fun b => b ≠ 34))
    ∧ (validUTF8 v = true → 34 ∉ v → omitQuote v = v) := by
  have hvalid : validUTF8 v = true → omitQuote v = v.filter (fun b => b ≠ 34) := by
    intro hv
    rw [omitQuote_eq]
    exact validString_filter v.length v (le_refl _) hv
  refine ⟨?_, ?_, omitQuote_eq v, runesOf_omitQuote v, ?_, hvalid, ?_⟩
  · rw [omitQuote_eq]
    exact quote_not_mem_encodeAll _ (filtered_valid v)
  · intro b hb
    rw [omitQuote_eq] at hb
    unfold encodeAll at hb
    rw [List.mem_flatten] at hb
    obtain ⟨l, hl, hbl⟩ := hb
    rw [List.mem_map] at hl
    obtain ⟨r, _, rfl⟩ := hl
    exact encodeRune_byte r b hbl
  · rw [omitQuote_eq (omitQuote v), runesOf_omitQuote, List.filter_filter, omitQuote_eq v]
    simp
  · intro hv hq
    rw [hvalid hv, List.filter_eq_self]
    intro b hb
    have : b ≠ 34 := fun e => hq (e ▸ hb)
    simpa using this

/-- An instance of C10 as amended: a valid UTF-8 string with a two-byte rune
between two double quotes, and a letter on each side, loses exactly its two quote
bytes. -/
theorem omitQuote_removes_exactly_the_quotes_witness :
    validUTF8 [0x61, 0x22, 0xC3, 0xA9, 0x22, 0x62] = true
    ∧ omitQuote [0x61, 0x22, 0xC3, 0xA9, 0x22, 0x62] = [0x61, 0xC3, 0xA9, 0x62]
    ∧ omitQuote [0x61, 0x22, 0xC3, 0xA9, 0x22, 0x62]
        = ([0x61, 0x22, 0xC3, 0xA9, 0x22, 0x62] : List Nat).filter (fun b => b ≠ 34) :=
  ⟨by decide, by decide,
   (omitQuote_removes_exactly_the_quotes [0x61, 0x22, 0xC3, 0xA9, 0x22, 0x62]).2.2.2.2.2.1
     (by decide)⟩

/-! ## The job guard -/

theorem runGuardOps_busy (ops : List GuardOp) (rs : RombaService) (h : rs.busy = true) :
    (runGuardOps ops rs).2 = 0 ∧ (runGuardOps ops rs).1.busy = true
      ∧ (runGuardOps ops rs).1.jobName = rs.jobName := by
  induction ops generalizing rs with
  | nil => simp [runGuardOps, h]
  | cons op ops ih =>
    cases op with
    | request =>
      have hd : datstats rs = (rs, StartResult.stillBusy rs.jobName rs.pt) := by
        simp [datstats, h]
      simp only [runGuardOps, hd]
      have := ih rs h
      simp [this]
    | declareFile name =>
      simp only [runGuardOps]
      exact ih { rs with pt := rs.pt.DeclareFile name } h

theorem runGuardOps_le_one (ops : List GuardOp) (rs : RombaService) :
    (runGuardOps ops rs).2 ≤ 1 := by
  induction ops generalizing rs with
  | nil => simp [runGuardOps]
  | cons op ops ih =>
    cases op with
    | request =>
      by_cases h : rs.busy = true
      · rw [(runGuardOps_busy _ rs h).1]
        exact Nat.zero_le 1
      · have hb : (datstats rs).1.busy = true := by simp [datstats, h]
        simp only [runGuardOps]
        rw [(runGuardOps_busy ops _ hb).1]
        split <;> simp
    | declareFile name =>
      simp only [runGuardOps]
      exact ih _

/-- C2: a start request is a try-acquire on the job guard. When `busy` is set it
leaves the service (guard and progress counters) unchanged, launches nothing and
only reports the job name and the progress snapshot; otherwise it resets the
progress tracker, sets `busy`, names the job "datstats" and launches the job. So
no sequence of start requests without a release in between launches more than one
job, and none at all when the guard is busy at the beginning. -/
theorem datstats_try_acquire (rs : RombaService) :
    (rs.busy = true → datstats rs = (rs, StartResult.stillBusy rs.jobName rs.pt))
    ∧ (rs.busy = false →
        datstats rs = ({ busy := true, jobName := "datstats", pt := Progress.Reset },
                       StartResult.launched))
    ∧ (∀ ops : List GuardOp, (runGuardOps ops rs).2 ≤ 1)
    ∧ (rs.busy = true → ∀ ops : List GuardOp,
        (runGuardOps ops rs).2 = 0 ∧ (runGuardOps ops rs).1.busy = true
          ∧ (runGuardOps ops rs).1.jobName = rs.jobName) := by
  refine ⟨?_, ?_, fun ops => runGuardOps_le_one ops rs, fun h ops => runGuardOps_busy ops rs h⟩
  · intro h
    simp [datstats, h]
  · intro h
    simp [datstats, h]

/-! ## The visitor's skip branches -/

/-- C7: visiting a dat whose generation is not the store's current one, or a dat
that the deduper maps to nil, returns no error and leaves the accumulator, with
all its counters and its histogram, as it was; the job goroutine stays in the
iteration with the same accumulator. -/
theorem visit_skip_leaves_accumulator (env : Env) (st : ScanState) (dat : Dat)
    (h : dat.Generation ≠ env.Generation ∨ env.Dedup st.seen dat = Except.ok none) :
    (visit env st dat).2 = none
    ∧ (visit env st dat).1.dts = st.dts
    ∧ ∀ (w : World) (ds : List Dat), w.pc = PC.forEachDat → w.rest = dat :: ds →
        w.seen = st.seen →
        (jobStep env w).dts = w.dts ∧ (jobStep env w).pc = PC.forEachDat
          ∧ (jobStep env w).err = w.err ∧ (jobStep env w).rest = ds := by
  have key : ∀ st' : ScanState, st'.seen = st.seen →
      (visit env st' dat).2 = none ∧ (visit env st' dat).1.dts = st'.dts := by
    intro st' hs
    by_cases hg : dat.Generation = env.Generation
    · have hd : env.Dedup st.seen dat = Except.ok none := by
        rcases h with h | h
        · exact absurd hg h
        · exact h
      simp [visit, hg, hs, hd]
    · simp [visit, hg]
  refine ⟨(key st rfl).1, (key st rfl).2, ?_⟩
  intro w ds hpc hrest hseen
  have hk := key { pt := w.rs.pt, dts := w.dts, seen := w.seen } hseen
  simp only [jobStep, hpc, hrest]
  rw [hk.1]
  simp [hk.2]

/-- An instance of C7: a dat of an older generation visited with a non-empty
accumulator. -/
theorem visit_skip_leaves_accumulator_witness :
    staleDat.Generation ≠ exampleEnv.Generation
    ∧ (visit exampleEnv
        { pt := Progress.Reset, dts := recordDat datStats.fresh exampleDat, seen := [exampleDat] }
        staleDat).2 = none
    ∧ (visit exampleEnv
        { pt := Progress.Reset, dts := recordDat datStats.fresh exampleDat, seen := [exampleDat] }
        staleDat).1.dts = recordDat datStats.fresh exampleDat :=
  ⟨by decide,
   (visit_skip_leaves_accumulator exampleEnv
      { pt := Progress.Reset, dts := recordDat datStats.fresh exampleDat, seen := [exampleDat] }
      staleDat (Or.inl (by decide))).1,
   (visit_skip_leaves_accumulator exampleEnv
      { pt := Progress.Reset, dts := recordDat datStats.fresh exampleDat, seen := [exampleDat] }
      staleDat (Or.inl (by decide))).2.1⟩

/-! ## The histogram loop -/

theorem wrapInt64_of_fits (x : Int) (h0 : 0 ≤ x) (h1 : x < 2 ^ 63) : wrapInt64 x = x := by
  unfold wrapInt64
  norm_num at h1 ⊢
  omega

theorem histogram_foldl (ibytes : Nat → String) (bs : List Bracket) (prev : Int)
    (out : List HistogramRow) (h0 : 0 ≤ prev)
    (hmono : List.Chain (fun a b => a ≤ b) prev (bs.map fun b => b.Count))
    (hfit : ∀ b ∈ bs, b.Count < 2 ^ 63) :
    (bs.foldl (histogramStep ibytes) (prev, out)).2
        = out ++ ((discreteCounts prev bs).filter fun p => 0 < p.1).map (histogramRow ibytes)
    ∧ ((((discreteCounts prev bs).filter fun p => 0 < p.1).map
          fun p => p.1).sum = (bs.map fun b => b.Count).getLastD prev - prev) := by
  induction bs generalizing prev out with
  | nil => simp [discreteCounts]
  | cons b bs ih =>
    simp only [List.map_cons, List.chain_cons] at hmono
    obtain ⟨hle, hch⟩ := hmono
    have hb : b.Count < 2 ^ 63 := hfit b (List.mem_cons_self _ _)
    have hw : wrapInt64 (b.Count - prev) = b.Count - prev :=
      wrapInt64_of_fits _ (by omega) (by omega)
    have ih' := fun o => ih b.Count o (by omega) hch
      (fun x hx => hfit x (List.mem_cons_of_mem _ hx))
    have hlast : ((b :: bs).map fun b => b.Count).getLastD prev
        = (bs.map fun b => b.Count).getLastD b.Count := by
      cases bs <;> simp [List.getLastD]
    rw [hlast]
    by_cases hpos : 0 < b.Count - prev
    · constructor
      · simp only [List.foldl_cons, histogramStep, hw, gt_iff_lt, hpos, if_true]
        rw [(ih' _).1]
        simp [discreteCounts, hpos, histogramRow]
      · simp only [discreteCounts, List.filter_cons, hpos, decide_True, if_true,
          List.map_cons, List.sum_cons]
        rw [(ih' []).2]
        omega
    · constructor
      · simp only [List.foldl_cons, histogramStep, hw, gt_iff_lt, hpos, if_false]
        rw [(ih' _).1]
        simp [discreteCounts, hpos]
      · have hz : b.Count = prev := by omega
        simp only [discreteCounts, List.filter_cons, hpos, decide_False]
        simp only [Bool.false_eq_true, if_false]
        rw [(ih' []).2]
        simp [hz]

/-- C6: for a cumulative distribution `bs` whose counts are `int64` values that
never decrease, starting from zero, the histogram loop emits, in order, exactly
the rows whose count minus the previous count (zero before the first row) is
positive, each with that difference, and the emitted counts add up to the last
cumulative count, the total number of recorded values (zero for an empty `bs`). -/
theorem histogramLoop_counts_sum_to_total (ibytes : Nat → String) (bs : List Bracket)
    (hmono : List.Chain (fun a b => a ≤ b) 0 (bs.map fun b => b.Count))
    (hfit : ∀ b ∈ bs, b.Count < 2 ^ 63) :
    histogramLoop ibytes bs
        = ((discreteCounts 0 bs).filter fun p => 0 < p.1).map (histogramRow ibytes)
    ∧ ((histogramLoop ibytes bs).map fun r => r.count).sum
        = (bs.map fun b => b.Count).getLastD 0 := by
  have h := histogram_foldl ibytes bs 0 [] (le_refl 0) hmono hfit
  have h1 : histogramLoop ibytes bs
      = ((discreteCounts 0 bs).filter fun p => 0 < p.1).map (histogramRow ibytes) := by
    unfold histogramLoop
    rw [h.1]
    simp
  refine ⟨h1, ?_⟩
  rw [h1, List.map_map]
  have h2 := h.2
  simp only [sub_zero] at h2
  rw [← h2]
  rfl

/-- An instance of C6: cumulative counts 1, 2, 2, 5 give the discrete counts
1, 1, 3, which add up to 5. -/
theorem histogramLoop_counts_sum_to_total_witness :
    ((histogramLoop (fun n => toString n)
        [⟨50, 1, 100⟩, ⟨75, 2, 200⟩, ⟨75, 2, 300⟩, ⟨100, 5, 1501⟩]).map fun r => r.count)
      = [1, 1, 3]
    ∧ ((histogramLoop (fun n => toString n)
        [⟨50, 1, 100⟩, ⟨75, 2, 200⟩, ⟨75, 2, 300⟩, ⟨100, 5, 1501⟩]).map fun r => r.count).sum
      = 5 :=
  ⟨by decide,
   (histogramLoop_counts_sum_to_total (fun n => toString n)
      [⟨50, 1, 100⟩, ⟨75, 2, 200⟩, ⟨75, 2, 300⟩, ⟨100, 5, 1501⟩]
      (by simp) (by decide)).2⟩

/-! ## The cumulative table loop -/

theorem cumulativePrints_iff (ibytes : Nat → String) (bs : List Bracket) (i : Nat)
    (hi : i < bs.length) :
    cumulativePrints ibytes bs i = true
      ↔ (i + 1 = bs.length ∨ formattedValueAt ibytes bs i ≠ formattedValueAt ibytes bs (i + 1)) := by
  unfold cumulativePrints formattedValueAt
  simp only [Bool.or_eq_true, Bool.and_eq_true, decide_eq_true_eq, bne_iff_ne, ne_eq]
  constructor
  · rintro (⟨_, h⟩ | h)
    · exact Or.inr h
    · exact Or.inl (by omega)
  · rintro (h | h)
    · exact Or.inr (by omega)
    · by_cases hl : i + 1 = bs.length
      · exact Or.inr (by omega)
      · exact Or.inl ⟨by omega, h⟩

theorem cumulativeFrom_eq (ibytes : Nat → String) (bs : List Bracket) (fuel i : Nat)
    (h : i + fuel = bs.length) :
    cumulativeFrom ibytes bs fuel i
      = ((List.range' i fuel).filter (cumulativePrints ibytes bs)).map
          (fun j => cumulativeRow ibytes (bs.getD j default)) := by
  induction fuel generalizing i with
  | zero => simp [cumulativeFrom]
  | succ n ih =>
    have hi : i < bs.length := by omega
    simp only [cumulativeFrom, hi, if_true, List.range'_succ, List.filter_cons]
    rw [ih (i + 1) (by omega)]
    by_cases hp : cumulativePrints ibytes bs i = true
    · simp [hp]
    · simp [hp]

theorem cumulativeLoop_eq (ibytes : Nat → String) (bs : List Bracket) :
    cumulativeLoop ibytes bs
      = ((List.range bs.length).filter (cumulativePrints ibytes bs)).map
          (fun i => cumulativeRow ibytes (bs.getD i default)) := by
  unfold cumulativeLoop
  rw [cumulativeFrom_eq ibytes bs bs.length 0 (by omega), List.range_eq_range']

theorem cumulativeLoop_getLast (ibytes : Nat → String) (bs : List Bracket) (hne : bs ≠ []) :
    cumulativePrints ibytes bs (bs.length - 1) = true
    ∧ (cumulativeLoop ibytes bs).getLast? = bs.getLast?.map (cumulativeRow ibytes) := by
  have hlen : 0 < bs.length := List.length_pos.mpr hne
  have hp : cumulativePrints ibytes bs (bs.length - 1) = true :=
    (cumulativePrints_iff ibytes bs _ (by omega)).mpr (Or.inl (by omega))
  refine ⟨hp, ?_⟩
  rw [cumulativeLoop_eq]
  obtain ⟨n, hn⟩ : ∃ n, bs.length = n + 1 := ⟨bs.length - 1, by omega⟩
  have hp' : cumulativePrints ibytes bs n = true := by
    have : bs.length - 1 = n := by omega
    rw [← this]
    exact hp
  rw [hn, List.range_succ, List.filter_append]
  simp only [List.filter_cons, hp', if_true, List.filter_nil, List.map_append, List.map_cons,
    List.map_nil, List.getLast?_append, List.getLast?_singleton]
  have hlast : bs.getLast? = some (bs.getD n default) := by
    rw [List.getLast?_eq_getElem?]
    have : bs.length - 1 = n := by omega
    rw [this, List.getD_eq_getElem?_getD]
    have hlt : n < bs.length := by omega
    simp [List.getElem?_eq_getElem hlt]
  rw [hlast]
  rfl

/-- C8: for every cumulative distribution `bs` and every formatting function, the
cumulative loop prints, in order, exactly the rows for which its condition holds;
the condition holds for row `i` if and only if `i` is the last row or the
formatted `ValueAt` of row `i` differs from that of row `i + 1`. So of the rows
`a..b` of a run of identical formatted values that ends at `b` (row `b` is the
last row or is followed by a different formatted value) exactly row `b` is
printed, and the last row of a non-empty `bs` is always printed, as the last line. -/
theorem cumulativeLoop_prints_last_of_each_run (ibytes : Nat → String) (bs : List Bracket) :
    cumulativeLoop ibytes bs
      = ((List.range bs.length).filter (cumulativePrints ibytes bs)).map
          (fun i => cumulativeRow ibytes (bs.getD i default))
    ∧ (∀ i, i < bs.length →
        (cumulativePrints ibytes bs i = true
          ↔ (i + 1 = bs.length
              ∨ formattedValueAt ibytes bs i ≠ formattedValueAt ibytes bs (i + 1))))
    ∧ (∀ a b, a ≤ b → b < bs.length →
        (∀ k, a ≤ k → k < b →
          formattedValueAt ibytes bs k = formattedValueAt ibytes bs (k + 1)) →
        (b + 1 = bs.length
          ∨ formattedValueAt ibytes bs b ≠ formattedValueAt ibytes bs (b + 1)) →
        ∀ i, a ≤ i → i ≤ b → (cumulativePrints ibytes bs i = true ↔ i = b))
    ∧ (bs ≠ [] →
        cumulativePrints ibytes bs (bs.length - 1) = true
        ∧ (cumulativeLoop ibytes bs).getLast? = bs.getLast?.map (cumulativeRow ibytes)) := by
  refine ⟨cumulativeLoop_eq ibytes bs, fun i hi => cumulativePrints_iff ibytes bs i hi, ?_,
    cumulativeLoop_getLast ibytes bs⟩
  intro a b hab hb hrun hend i hai hib
  rw [cumulativePrints_iff ibytes bs i (by omega)]
  constructor
  · rintro (h | h)
    · omega
    · by_contra hne
      exact h (hrun i hai (by omega))
  · intro h
    subst h
    exact hend

/-! ## The invariant of a launched job -/

theorem declaredNames_append (a b : List Event) :
    declaredNames (a ++ b) = declaredNames a ++ declaredNames b := by
  simp [declaredNames, List.filterMap_append]

theorem early_append (tr : List Event) (e : Event) (h : ∀ x ∈ tr, x.early = true)
    (he : e.early = true) : ∀ x ∈ tr ++ [e], x.early = true := by
  intro x hx
  rcases List.mem_append.mp hx with hx | hx
  · exact h x hx
  · rw [List.mem_singleton.mp hx]
    exact he

theorem inv_launch (env : Env) (rs : RombaService) : Inv env rs (World.launch rs) := by
  simp [Inv, World.launch, declaredNames]

theorem inv_timerStep (env : Env) (rs : RombaService) (w : World) (h : Inv env rs w) :
    Inv env rs (timerStep w) := by
  unfold timerStep
  split
  · unfold Inv at h ⊢
    cases hpc : w.pc <;> simp only [hpc] at h ⊢ <;> exact h
  · exact h

theorem inv_broadcasterStep (env : Env) (rs : RombaService) (w : World) (h : Inv env rs w) :
    Inv env rs (broadcasterStep w) := by
  unfold broadcasterStep
  split
  · rename_i hb
    simp only [Bool.and_eq_true] at hb
    have hbr : w.broadcaster = true := hb.1
    have hearly : (Event.broadcast false false (Msg.text "") none).early = true := rfl
    have hdecl : declaredNames (w.trace ++ [Event.broadcast false false (Msg.text "") none])
        = declaredNames w.trace := by
      simp [declaredNames_append, declaredNames]
    unfold Inv at h ⊢
    cases hpc : w.pc <;> simp only [hpc] at h ⊢
    case start => exact ⟨h.1, h.2.1, early_append _ _ h.2.2.1 hearly, by rw [hdecl]; exact h.2.2.2⟩
    case spawn => exact ⟨h.1, h.2.1, early_append _ _ h.2.2.1 hearly, by rw [hdecl]; exact h.2.2.2⟩
    case newDeduper =>
      exact ⟨h.1, h.2.1, early_append _ _ h.2.2.1 hearly, by rw [hdecl]; exact h.2.2.2.1,
        h.2.2.2.2⟩
    case forEachDat =>
      obtain ⟨h1, h2, h3, h4, h5, h6⟩ := h
      exact ⟨h1, h2, h3, early_append _ _ h4 hearly, by rw [hdecl]; exact h5, h6⟩
    case failed => exact h
    case report =>
      obtain ⟨h1, h2, h3, h4, h5, h6⟩ := h
      exact ⟨h1, h2, h3, early_append _ _ h4 hearly, by rw [hdecl]; exact h5, h6⟩
    case tickerStop =>
      obtain ⟨h1, h2, h3, h4, h5, h6⟩ := h
      exact ⟨h1, h2, h3, early_append _ _ h4 hearly, by rw [hdecl]; exact h5, h6⟩
    case stopSignal =>
      obtain ⟨h1, h2, h3, h4, h5, h6⟩ := h
      exact ⟨h1, h2, h3, early_append _ _ h4 hearly, by rw [hdecl]; exact h5, h6⟩
    case release =>
      obtain ⟨_, _, _, _, _, h6, _⟩ := h
      rw [hbr] at h6
      exact absurd h6 (by simp)
    case finish =>
      obtain ⟨_, _, _, _, h6, _⟩ := h
      rw [hbr] at h6
      exact absurd h6 (by simp)
    case done =>
      refine ⟨fun he => ?_, fun he => ?_⟩
      · have h6 := (h.1 he).2.2.2.1
        rw [hbr] at h6
        exact absurd h6 (by simp)
      · obtain ⟨h1, h2, h3, h4, e, he1, he2⟩ := h.2 he
        exact ⟨h1, h2, h3, h4, e, List.mem_append_left _ he1, he2⟩
  · exact h

theorem declaredNames_snoc (tr : List Event) (e : Event) :
    declaredNames (tr ++ [e])
      = declaredNames tr ++ (match e with
          | Event.declareFile name => [name]
          | _ => []) := by
  rw [declaredNames_append]
  cases e <;> rfl

theorem inv_jobStep (env : Env) (rs : RombaService) (w : World) (h : Inv env rs w) :
    Inv env rs (jobStep env w) := by
  unfold Inv at h
  cases hpc : w.pc <;> simp only [hpc] at h
  case start =>
    obtain ⟨h1, h2, h3, h4⟩ := h
    simp only [jobStep, hpc, Inv]
    exact ⟨h1, h2, early_append _ _ h3 rfl, by rw [declaredNames_snoc, h4]; rfl⟩
  case spawn =>
    obtain ⟨h1, h2, h3, h4⟩ := h
    simp only [jobStep, hpc, Inv]
    exact ⟨h1, h2, h3, h4, trivial, trivial⟩
  case newDeduper =>
    obtain ⟨h1, h2, h3, h4, h5, h6⟩ := h
    simp only [jobStep, hpc]
    cases hd : env.NewLevelDBDeduper with
    | some e =>
      simp only [Inv]
      exact ⟨by rw [h1], by rw [h1], by simp, h5, h6⟩
    | none =>
      simp only [Inv]
      refine ⟨by rw [h1], by rw [h1], h2, h3, by simp [h4], h5, h6, ?_⟩
      rw [h1]
      rfl
  case forEachDat =>
    obtain ⟨h1, h2, h3, h4, h5, h6, h7, h8⟩ := h
    simp only [jobStep, hpc]
    cases hr : w.rest with
    | nil =>
      rw [hr] at h5 h8
      simp only [forEachDat] at h8
      cases hi : env.iterErr with
      | some e =>
        simp only [Inv]
        exact ⟨h1, h2, by simp, h6, h7⟩
      | none =>
        simp only [Inv]
        rw [hi] at h8
        exact ⟨h1, h2, h3, h4, by simpa using h5, h6, h8.symm⟩
    | cons d ds =>
      rw [hr] at h5 h8
      simp only [forEachDat] at h8
      simp only
      cases hv : (visit env { pt := w.rs.pt, dts := w.dts, seen := w.seen } d).2 with
      | some e =>
        simp only [Inv]
        exact ⟨h1, h2, by simp, h6, h7⟩
      | none =>
        simp only [Inv, hpc]
        refine ⟨h1, h2, h3, early_append _ _ h4 rfl, ?_, h6, h7, ?_⟩
        · rw [← h5, declaredNames_snoc]
          simp
        · rw [← h8]
          have hv' : visit env { pt := w.rs.pt, dts := w.dts, seen := w.seen } d
              = ((visit env { pt := w.rs.pt, dts := w.dts, seen := w.seen } d).1, none) := by
            rw [← hv]
          rw [hv']
  case failed =>
    obtain ⟨h1, h2, h3, h4, h5⟩ := h
    simp only [jobStep, hpc, Inv]
    exact ⟨fun he => absurd he h3, fun _ => ⟨h1, h2, h4, h5, _, List.mem_append_right _
      (List.mem_singleton_self _), rfl⟩⟩
  case report =>
    obtain ⟨h1, h2, h3, h4, h5, h6, h7⟩ := h
    simp only [jobStep, hpc, Inv]
    exact ⟨h1, h2, h3, h4, h5, h6, h7, trivial⟩
  case tickerStop =>
    obtain ⟨h1, h2, h3, h4, h5, h6, h7, h8⟩ := h
    simp only [jobStep, hpc, Inv]
    exact ⟨h1, h2, h3, early_append _ _ h4 rfl,
      by rw [declaredNames_snoc, h5]; simp, h6, h7, h8⟩
  case stopSignal =>
    obtain ⟨h1, h2, h3, h4, h5, h6, h7, h8⟩ := h
    simp only [jobStep, hpc, h6, if_true, Inv]
    exact ⟨h1, h2, h3, early_append _ _ h4 rfl,
      by rw [declaredNames_snoc, h5]; simp, trivial, h7, h8⟩
  case release =>
    obtain ⟨h1, h2, h3, h4, h5, h6, h7, h8⟩ := h
    simp only [jobStep, hpc, Inv]
    exact ⟨trivial, trivial, h3, ⟨w.trace, by simp, h4, h5⟩, h6, h7, h8⟩
  case finish =>
    obtain ⟨h1, h2, h3, ⟨pre, hp1, hp2, hp3⟩, h6, h7, h8⟩ := h
    simp only [jobStep, hpc, Inv]
    refine ⟨fun _ => ⟨h1, h2, ⟨pre, ?_, hp2, hp3⟩, h6, h7⟩, fun he => absurd h3 he⟩
    rw [hp1, h8, h3]
    simp
  case done =>
    simp only [jobStep, hpc, Inv]
    exact h

theorem inv_step (env : Env) (rs : RombaService) (w : World) (a : Actor)
    (h : Inv env rs w) : Inv env rs (step env w a) := by
  cases a
  · exact inv_jobStep env rs w h
  · exact inv_timerStep env rs w h
  · exact inv_broadcasterStep env rs w h

theorem inv_exec_from (env : Env) (rs : RombaService) (sched : List Actor) (w : World)
    (h : Inv env rs w) : Inv env rs (exec env sched w) := by
  induction sched generalizing w with
  | nil => exact h
  | cons a as ih => exact ih (step env w a) (inv_step env rs w a h)

theorem inv_exec (env : Env) (rs : RombaService) (sched : List Actor) :
    Inv env rs (exec env sched (World.launch rs)) :=
  inv_exec_from env rs sched _ (inv_launch env rs)

/-! ## The job goroutine returns -/

theorem stepsLeft_jobStep (env : Env) (rs : RombaService) (w : World) (h : Inv env rs w) :
    stepsLeft env (jobStep env w) ≤ stepsLeft env w - 1 := by
  unfold Inv at h
  cases hpc : w.pc <;> simp only [hpc] at h
  case newDeduper =>
    cases hd : env.NewLevelDBDeduper <;> simp [jobStep, stepsLeft, hpc, hd]
  case forEachDat =>
    cases hr : w.rest with
    | nil => cases hi : env.iterErr <;> simp [jobStep, stepsLeft, hpc, hr, hi]
    | cons d ds =>
      cases hv : (visit env { pt := w.rs.pt, dts := w.dts, seen := w.seen } d).2 <;>
        simp [jobStep, stepsLeft, hpc, hr, hv]
  case stopSignal =>
    have hb : w.broadcaster = true := h.2.2.2.2.2.1
    simp [jobStep, stepsLeft, hpc, hb]
  all_goals simp [jobStep, stepsLeft, hpc]

theorem stepsLeft_step (env : Env) (rs : RombaService) (w : World) (a : Actor)
    (h : Inv env rs w) :
    stepsLeft env (step env w a) ≤ stepsLeft env w - (if a = Actor.job then 1 else 0) := by
  cases a
  · simpa [step] using stepsLeft_jobStep env rs w h
  · have : stepsLeft env (timerStep w) = stepsLeft env w := by
      unfold timerStep
      split <;> rfl
    simp [step, this]
  · have : stepsLeft env (broadcasterStep w) = stepsLeft env w := by
      unfold broadcasterStep
      split <;> rfl
    simp [step, this]

theorem stepsLeft_exec (env : Env) (rs : RombaService) (sched : List Actor) (w : World)
    (h : Inv env rs w) :
    stepsLeft env (exec env sched w) ≤ stepsLeft env w - sched.count Actor.job := by
  induction sched generalizing w with
  | nil => simp [exec]
  | cons a as ih =>
    have h1 := ih (step env w a) (inv_step env rs w a h)
    have h2 := stepsLeft_step env rs w a h
    have h3 : exec env (a :: as) w = exec env as (step env w a) := rfl
    rw [h3, List.count_cons]
    cases a <;> simp at h2 ⊢ <;> omega

theorem returned_of_stepsLeft (env : Env) (w : World) (h : stepsLeft env w = 0) :
    w.returned = true := by
  unfold stepsLeft at h
  cases hpc : w.pc <;> simp [hpc] at h
  simp [World.returned, hpc]

/-- Every schedule that gives the job goroutine one step per dat and nine more
makes it return. -/
theorem job_returns (env : Env) (rs : RombaService) (sched : List Actor)
    (h : env.dats.length + 9 ≤ sched.count Actor.job) :
    (exec env sched (World.launch rs)).returned = true := by
  apply returned_of_stepsLeft env
  have h1 := stepsLeft_exec env rs sched _ (inv_launch env rs)
  have h2 : stepsLeft env (World.launch rs) = env.dats.length + 9 := rfl
  omega

/-! ## What the scan accumulates -/

theorem accumulated_refl (base : datStats) (h : base.totalSize < 2 ^ 64) :
    Accumulated base base 0 0 [] := by
  refine ⟨by simp, by simp, by simp, by simp, ?_, by simp⟩
  simp only [List.map_nil, List.sum_nil, add_zero]
  exact (Nat.mod_eq_of_lt h).symm

theorem accumulated_recordRom (base dts : datStats) (d g : Nat) (roms : List Rom) (r : Rom)
    (h : Accumulated base dts d g roms) :
    Accumulated base (recordRom dts r) d g (roms ++ [r]) := by
  obtain ⟨h1, h2, h3, h4, h5, h6⟩ := h
  have hsum : (dts.totalSize + toUint64 r.Size) % 2 ^ 64
      = (base.totalSize + ((roms ++ [r]).map fun r => toUint64 r.Size).sum) % 2 ^ 64 := by
    rw [h5]
    simp only [List.map_append, List.map_cons, List.map_nil, List.sum_append, List.sum_cons,
      List.sum_nil, add_zero]
    rw [Nat.mod_add_mod, Nat.add_assoc]
  unfold recordRom
  by_cases hs : r.Size ≤ 4000
  · simp only [hs, if_true]
    refine ⟨by simp [h1], by simp [h2]; ring, h3, h4, hsum, ?_⟩
    simp [h6, List.filter_append, hs]
    ring
  · simp only [hs, if_false]
    refine ⟨by simp [h1], by simp [h2]; ring, h3, h4, hsum, ?_⟩
    simp [h6, List.filter_append, hs]

theorem accumulated_roms (base dts : datStats) (d g : Nat) (roms rs : List Rom)
    (h : Accumulated base dts d g roms) :
    Accumulated base (rs.foldl recordRom dts) d g (roms ++ rs) := by
  induction rs generalizing dts roms with
  | nil => simpa using h
  | cons r rs ih =>
    have := ih (recordRom dts r) (roms ++ [r]) (accumulated_recordRom base dts d g roms r h)
    simpa using this

theorem accumulated_recordGame (base dts : datStats) (d g : Nat) (roms : List Rom) (gm : Game)
    (h : Accumulated base dts d g roms) :
    Accumulated base (recordGame dts gm) d (g + 1) (roms ++ gm.Roms) := by
  unfold recordGame
  apply accumulated_roms
  obtain ⟨h1, h2, h3, h4, h5, h6⟩ := h
  refine ⟨h1, h2, h3, ?_, h5, h6⟩
  simp [h4]
  ring

theorem accumulated_games (base dts : datStats) (d g : Nat) (roms : List Rom) (gs : List Game)
    (h : Accumulated base dts d g roms) :
    Accumulated base (gs.foldl recordGame dts) d (g + gs.length)
      (roms ++ (gs.map fun x => x.Roms).flatten) := by
  induction gs generalizing dts g roms with
  | nil => simpa using h
  | cons gm gs ih =>
    have := ih (recordGame dts gm) (g + 1) (roms ++ gm.Roms)
      (accumulated_recordGame base dts d g roms gm h)
    simp only [List.foldl_cons, List.length_cons, List.map_cons, List.flatten_cons]
    have e1 : g + (gs.length + 1) = g + 1 + gs.length := by omega
    rw [e1, ← List.append_assoc]
    exact this

theorem accumulated_recordDat (base dts : datStats) (d g : Nat) (roms : List Rom) (dat : Dat)
    (h : Accumulated base dts d g roms) :
    Accumulated base (recordDat dts dat) (d + 1) (g + dat.Games.length)
      (roms ++ (dat.Games.map fun x => x.Roms).flatten) := by
  unfold recordDat
  apply accumulated_games
  obtain ⟨h1, h2, h3, h4, h5, h6⟩ := h
  refine ⟨h1, h2, ?_, h4, h5, h6⟩
  simp [h3]
  ring

theorem accumulated_dats (base dts : datStats) (d g : Nat) (roms : List Rom) (ds : List Dat)
    (h : Accumulated base dts d g roms) :
    Accumulated base (ds.foldl recordDat dts) (d + ds.length)
      (g + (ds.map fun x => x.Games.length).sum) (roms ++ romsOf ds) := by
  induction ds generalizing dts d g roms with
  | nil => simpa [romsOf] using h
  | cons dat ds ih =>
    have := ih (recordDat dts dat) (d + 1) (g + dat.Games.length)
      (roms ++ (dat.Games.map fun x => x.Roms).flatten)
      (accumulated_recordDat base dts d g roms dat h)
    simp only [List.foldl_cons, List.length_cons, List.map_cons, List.sum_cons, romsOf,
      List.flatten_cons]
    have e1 : d + (ds.length + 1) = d + 1 + ds.length := by omega
    have e2 : g + (dat.Games.length + (ds.map fun x => x.Games.length).sum)
        = g + dat.Games.length + (ds.map fun x => x.Games.length).sum := by omega
    rw [e1, e2, ← List.append_assoc]
    exact this

theorem forEachDat_accepted (env : Env) (ds : List Dat) (st st' : ScanState)
    (h : forEachDat env ds st = (st', none)) :
    st'.dts = (accepted env ds st.seen).foldl recordDat st.dts := by
  induction ds generalizing st with
  | nil =>
    simp only [forEachDat, Prod.mk.injEq] at h
    simp [accepted, ← h.1]
  | cons d ds ih =>
    simp only [forEachDat] at h
    by_cases hg : d.Generation = env.Generation
    · cases hd : env.Dedup st.seen d with
      | error e => simp [visit, hg, hd] at h
      | ok o =>
        cases o with
        | none =>
          simp only [visit, hg, hd, ne_eq, not_true_eq_false, if_false] at h
          have := ih _ h
          simpa [accepted, hg, hd] using this
        | some dedat =>
          simp only [visit, hg, hd, ne_eq, not_true_eq_false, if_false] at h
          have := ih _ h
          simpa [accepted, hg, hd] using this
    · simp only [visit, ne_eq, hg, not_false_eq_true, if_true] at h
      have := ih _ h
      simpa [accepted, hg] using this

theorem scanned_scan (env : Env) (rs : RombaService) (w : World) (h : Inv env rs w)
    (hs : w.scanned = true) :
    scan env rs = ({ pt := w.rs.pt, dts := w.dts, seen := w.seen }, none) := by
  have hs0 := hs
  unfold Inv at h
  unfold World.scanned at hs
  cases hpc : w.pc <;> simp only [hpc] at h hs
  all_goals clear hs
  case start => simp [World.scanned, hpc] at hs0
  case spawn => simp [World.scanned, hpc] at hs0
  case newDeduper => simp [World.scanned, hpc] at hs0
  case forEachDat => simp [World.scanned, hpc] at hs0
  case failed => simp [World.scanned, hpc] at hs0
  case report => exact h.2.2.2.2.2.2
  case tickerStop => exact h.2.2.2.2.2.2.1
  case stopSignal => exact h.2.2.2.2.2.2.1
  case release => exact h.2.2.2.2.2.2.1
  case finish => exact h.2.2.2.2.2.1
  case done =>
    have he : w.err = none := by
      cases hw : w.err
      · rfl
      · simp [World.scanned, hpc, hw] at hs0
    exact (h.1 he).2.2.2.2

theorem toUint64_sum (xs : List Int) :
    (((xs.map toUint64).sum % 2 ^ 64 : Nat) : Int) = xs.sum % 2 ^ 64 := by
  induction xs with
  | nil => simp
  | cons x xs ih =>
    have hx : ((toUint64 x : Nat) : Int) = x % 2 ^ 64 := by
      unfold toUint64
      exact Int.toNat_of_nonneg (Int.emod_nonneg _ (by norm_num))
    simp only [List.map_cons, List.sum_cons]
    push_cast at ih ⊢
    rw [hx]
    norm_num at ih ⊢
    omega

/-! ## The accumulator after the scan -/

/-- C5: once the iteration has returned without an error, on every schedule, the
accumulator counts exactly the accepted dats (current generation, mapped to a dat
by the deduper): `nDats` is their number, `nGames` the number of their games,
`nRoms` the number of their roms, `totalSize` the sum of the rom sizes modulo
`2^64`, `nRomsBelow4k` the number of roms of size at most 4000, and the histogram
was given every rom size once. -/
theorem datstats_accumulator_counts (env : Env) (rs : RombaService) (sched : List Actor)
    (h : (exec env sched (World.launch rs)).scanned = true) :
    (exec env sched (World.launch rs)).dts.nDats = ((accepted env env.dats []).length : Int)
    ∧ (exec env sched (World.launch rs)).dts.nGames
        = (((accepted env env.dats []).map fun d => d.Games.length).sum : Nat)
    ∧ (exec env sched (World.launch rs)).dts.nRoms
        = ((romsOf (accepted env env.dats [])).length : Int)
    ∧ (exec env sched (World.launch rs)).dts.totalSize
        = ((romsOf (accepted env env.dats [])).map fun r => toUint64 r.Size).sum % 2 ^ 64
    ∧ ((exec env sched (World.launch rs)).dts.totalSize : Int)
        = ((romsOf (accepted env env.dats [])).map fun r => r.Size).sum % 2 ^ 64
    ∧ (exec env sched (World.launch rs)).dts.nRomsBelow4k
        = (((romsOf (accepted env env.dats [])).filter fun r => r.Size ≤ 4000).length : Int)
    ∧ (exec env sched (World.launch rs)).dts.h
        = (romsOf (accepted env env.dats [])).map fun r => r.Size := by
  have hscan := scanned_scan env rs _ (inv_exec env rs sched) h
  have hfold := forEachDat_accepted env env.dats _ _ hscan
  simp only at hfold
  have hacc := accumulated_dats datStats.fresh datStats.fresh 0 0 [] (accepted env env.dats [])
    (accumulated_refl datStats.fresh (by norm_num [datStats.fresh]))
  rw [← hfold] at hacc
  obtain ⟨h1, h2, h3, h4, h5, h6⟩ := hacc
  have hsize : (exec env sched (World.launch rs)).dts.totalSize
      = ((romsOf (accepted env env.dats [])).map fun r => toUint64 r.Size).sum % 2 ^ 64 := by
    rw [h5]
    simp [datStats.fresh]
  refine ⟨?_, ?_, ?_, hsize, ?_, ?_, ?_⟩
  · rw [h3]; simp [datStats.fresh]
  · rw [h4]; simp [datStats.fresh]
  · rw [h2]; simp [datStats.fresh]
  · rw [hsize]
    have := toUint64_sum ((romsOf (accepted env env.dats [])).map fun r => r.Size)
    rw [List.map_map] at this
    exact this
  · rw [h6]; simp [datStats.fresh]
  · rw [h1]; simp [datStats.fresh]

/-- The instance of C5 from the spec: rom sizes 100, 100, 4000, 4001 and 1000000
(and a dat of an older generation that is skipped) give `nDats = 1`, `nRoms = 5`,
`nRomsBelow4k = 3` and `totalSize = 1008201`. -/
theorem datstats_accumulator_counts_witness :
    (exec exampleEnv [Actor.job, Actor.job, Actor.timer, Actor.broadcaster, Actor.job, Actor.job, Actor.job,
        Actor.timer, Actor.job] (World.launch acquiredService)).scanned = true
    ∧ (exec exampleEnv [Actor.job, Actor.job, Actor.timer, Actor.broadcaster, Actor.job, Actor.job, Actor.job,
        Actor.timer, Actor.job] (World.launch acquiredService)).dts
        = { h := [100, 100, 4000, 4001, 1000000], nRoms := 5, nDats := 1, nGames := 1,
            totalSize := 1008201, nRomsBelow4k := 3 }
    ∧ (exec exampleEnv [Actor.job, Actor.job, Actor.timer, Actor.broadcaster, Actor.job, Actor.job, Actor.job,
        Actor.timer, Actor.job] (World.launch acquiredService)).dts.nRoms
        = ((romsOf (accepted exampleEnv exampleEnv.dats [])).length : Int) :=
  ⟨by decide, by decide,
   (datstats_accumulator_counts exampleEnv acquiredService [Actor.job, Actor.job, Actor.timer, Actor.broadcaster, Actor.job, Actor.job, Actor.job,
        Actor.timer, Actor.job]
      (by decide)).2.2.1⟩

/-! ## The order of release and terminal snapshot -/

theorem findIdx_append_of_all_false (p : Event → Bool) (pre l : List Event)
    (h : ∀ e ∈ pre, p e = false) : (pre ++ l).findIdx p = pre.length + l.findIdx p := by
  induction pre with
  | nil => simp
  | cons x xs ih =>
    have hx : p x = false := h x (List.mem_cons_self _ _)
    have ih' := ih (fun e he => h e (List.mem_cons_of_mem _ he))
    simp only [List.cons_append, List.findIdx_cons, hx, cond_false, ih', List.length_cons]
    omega

theorem terminalBeforeRelease_of_release_then_terminal (pre : List Event) (m : Msg)
    (err : Option String) (h : ∀ e ∈ pre, e.early = true) :
    terminalBeforeRelease (pre ++ [Event.guardReleased, Event.broadcast false true m err])
      = false := by
  have h1 : ∀ e ∈ pre, e.isTerminal = false := by
    intro e he
    have := h e he
    cases e <;> simp_all [Event.early, Event.isTerminal]
  have h2 : ∀ e ∈ pre, (fun e => e == Event.guardReleased) e = false := by
    intro e he
    have := h e he
    cases e <;> simp_all [Event.early]
  have i1 : (pre ++ [Event.guardReleased, Event.broadcast false true m err]).findIdx
      Event.isTerminal = pre.length + 1 := by
    rw [findIdx_append_of_all_false _ _ _ h1]
    simp [List.findIdx_cons, Event.isTerminal]
  have i2 : (pre ++ [Event.guardReleased, Event.broadcast false true m err]).findIdx
      (fun e => e == Event.guardReleased) = pre.length := by
    rw [findIdx_append_of_all_false _ _ _ h2]
    simp [List.findIdx_cons]
  simp [terminalBeforeRelease, firstIndex, i1, i2]

theorem completed_iff (w : World) : w.completed = true ↔ w.pc = PC.done ∧ w.err = none := by
  unfold World.completed World.returned
  cases w.err <;> simp

/-- C3, on a concrete run: on a store without dats the job completes and its
trace is start snapshot, ticker stop, stop signal, guard release, terminal
snapshot; the terminal snapshot does not come before the release. -/
theorem terminal_snapshot_not_before_release :
    (exec emptyStoreEnv (List.replicate 9 Actor.job) (World.launch acquiredService)).completed
      = true
    ∧ firstIndex Event.isTerminal
        (exec emptyStoreEnv (List.replicate 9 Actor.job) (World.launch acquiredService)).trace
      = some 4
    ∧ firstIndex (fun e => e == Event.guardReleased)
        (exec emptyStoreEnv (List.replicate 9 Actor.job) (World.launch acquiredService)).trace
      = some 3
    ∧ terminalBeforeRelease
        (exec emptyStoreEnv (List.replicate 9 Actor.job) (World.launch acquiredService)).trace
      = false := by
  decide

/-- C3 as amended: in the trace of every completed job the terminal snapshot,
which carries the report, is the last event and comes right after the release of
the job guard; every event before the two is neither a terminal snapshot nor a
release, and all dats were visited before; the guard is free. The terminal
snapshot therefore does not precede the release. -/
theorem terminal_snapshot_follows_release (env : Env) (rs : RombaService) (sched : List Actor)
    (h : (exec env sched (World.launch rs)).completed = true) :
    (∃ pre, (exec env sched (World.launch rs)).trace
        = pre ++ [Event.guardReleased,
            Event.broadcast false true
              (Msg.report (makeReport env (exec env sched (World.launch rs)).dts)) none]
      ∧ (∀ e ∈ pre, e.early = true)
      ∧ declaredNames pre = env.dats.map (fun d => d.Name))
    ∧ (exec env sched (World.launch rs)).rs.busy = false
    ∧ (exec env sched (World.launch rs)).rs.jobName = ""
    ∧ terminalBeforeRelease (exec env sched (World.launch rs)).trace = false := by
  have hinv := inv_exec env rs sched
  obtain ⟨hpc, herr⟩ := (completed_iff _).mp h
  unfold Inv at hinv
  simp only [hpc] at hinv
  obtain ⟨h1, h2, ⟨pre, hp1, hp2, hp3⟩, _, _⟩ := hinv.1 herr
  refine ⟨⟨pre, hp1, hp2, hp3⟩, h1, h2, ?_⟩
  rw [hp1]
  exact terminalBeforeRelease_of_release_then_terminal pre _ _ hp2

/-- An instance of C3 as amended: a completed run over two dats with ticks in
between. -/
theorem terminal_snapshot_follows_release_witness :
    (exec exampleEnv
        [Actor.job, Actor.job, Actor.timer, Actor.broadcaster, Actor.job, Actor.job, Actor.job,
          Actor.timer, Actor.job, Actor.job, Actor.job, Actor.broadcaster, Actor.job, Actor.job,
          Actor.job, Actor.timer, Actor.broadcaster]
        (World.launch acquiredService)).completed = true
    ∧ terminalBeforeRelease (exec exampleEnv
        [Actor.job, Actor.job, Actor.timer, Actor.broadcaster, Actor.job, Actor.job, Actor.job,
          Actor.timer, Actor.job, Actor.job, Actor.job, Actor.broadcaster, Actor.job, Actor.job,
          Actor.job, Actor.timer, Actor.broadcaster]
        (World.launch acquiredService)).trace = false :=
  ⟨by decide,
   (terminal_snapshot_follows_release exampleEnv acquiredService
      [Actor.job, Actor.job, Actor.timer, Actor.broadcaster, Actor.job, Actor.job, Actor.job,
        Actor.timer, Actor.job, Actor.job, Actor.job, Actor.broadcaster, Actor.job, Actor.job,
        Actor.job, Actor.timer, Actor.broadcaster]
      (by decide)).2.2.2⟩

/-! ## The error paths -/

/-- On every schedule, a job that returned with an error left the guard as the
start request set it, the ticker running and the broadcaster alive; its trace has
a terminal snapshot, and the next tick adds a snapshot after it. -/
theorem error_path_skips_teardown (env : Env) (rs : RombaService) (sched : List Actor)
    (hret : (exec env sched (World.launch rs)).returned = true)
    (herr : (exec env sched (World.launch rs)).err ≠ none) :
    (exec env sched (World.launch rs)).rs.busy = rs.busy
    ∧ (exec env sched (World.launch rs)).rs.jobName = rs.jobName
    ∧ (exec env sched (World.launch rs)).broadcaster = true
    ∧ (exec env sched (World.launch rs)).ticker = true
    ∧ (∃ e ∈ (exec env sched (World.launch rs)).trace, e.isTerminal = true)
    ∧ (exec env (sched ++ [Actor.timer, Actor.broadcaster]) (World.launch rs)).trace
        = (exec env sched (World.launch rs)).trace
            ++ [Event.broadcast false false (Msg.text "") none] := by
  have hinv := inv_exec env rs sched
  have hpc : (exec env sched (World.launch rs)).pc = PC.done := by
    simpa [World.returned] using hret
  unfold Inv at hinv
  simp only [hpc] at hinv
  obtain ⟨h1, h2, h3, h4, h5⟩ := hinv.2 herr
  refine ⟨h1, h2, h3, h4, h5, ?_⟩
  have hx : exec env (sched ++ [Actor.timer, Actor.broadcaster]) (World.launch rs)
      = broadcasterStep (timerStep (exec env sched (World.launch rs))) := by
    simp [exec, List.foldl_append, step]
  rw [hx]
  simp [timerStep, broadcasterStep, h3, h4]

/-- C1, at the failing inputs: when the deduper cannot be created, and when the
deduper fails during the iteration, the job goroutine returns with `busy` still
set and the job name still "datstats"; a later start request is answered with
"still busy". On the store without errors the same job releases the guard. -/
theorem guard_not_released_on_error_paths :
    (datstats idleService).2 = StartResult.launched
    ∧ (exec brokenDeduperEnv (List.replicate 4 Actor.job) (World.launch acquiredService)).returned
        = true
    ∧ (exec brokenDeduperEnv (List.replicate 4 Actor.job) (World.launch acquiredService)).rs.busy
        = true
    ∧ (exec brokenDeduperEnv (List.replicate 4 Actor.job)
        (World.launch acquiredService)).rs.jobName = "datstats"
    ∧ (datstats (exec brokenDeduperEnv (List.replicate 4 Actor.job)
        (World.launch acquiredService)).rs).2
        = StartResult.stillBusy "datstats" Progress.Reset
    ∧ (exec failingDedupEnv (List.replicate 6 Actor.job) (World.launch acquiredService)).returned
        = true
    ∧ (exec failingDedupEnv (List.replicate 6 Actor.job) (World.launch acquiredService)).err
        = some "dedup failed"
    ∧ (exec failingDedupEnv (List.replicate 6 Actor.job) (World.launch acquiredService)).rs.busy
        = true
    ∧ (exec exampleEnv (List.replicate 11 Actor.job) (World.launch acquiredService)).returned
        = true
    ∧ (exec exampleEnv (List.replicate 11 Actor.job) (World.launch acquiredService)).rs.busy
        = false := by
  decide

/-- C4, at the failing inputs: when the deduper cannot be created the job returns
after the terminal snapshot with the ticker running and the broadcaster alive, and
the next tick publishes one more snapshot after the terminal one; the same
happens when the deduper fails during the iteration. -/
theorem snapshot_published_after_terminal_on_error_paths :
    (exec brokenDeduperEnv (List.replicate 4 Actor.job) (World.launch acquiredService)).returned
        = true
    ∧ (exec brokenDeduperEnv (List.replicate 4 Actor.job) (World.launch acquiredService)).ticker
        = true
    ∧ (exec brokenDeduperEnv (List.replicate 4 Actor.job)
        (World.launch acquiredService)).broadcaster = true
    ∧ (exec brokenDeduperEnv (List.replicate 4 Actor.job ++ [Actor.timer, Actor.broadcaster])
        (World.launch acquiredService)).trace
        = [Event.broadcast true false (Msg.text "") none,
           Event.broadcast false true (Msg.text "error collecting datstats")
             (some "cannot open deduper"),
           Event.broadcast false false (Msg.text "") none]
    ∧ (exec failingDedupEnv (List.replicate 6 Actor.job ++ [Actor.timer, Actor.broadcaster])
        (World.launch acquiredService)).trace
        = [Event.broadcast true false (Msg.text "") none,
           Event.declareFile "arcade",
           Event.declareFile "arcade",
           Event.broadcast false true (Msg.text "error collecting datstats")
             (some "dedup failed"),
           Event.broadcast false false (Msg.text "") none] := by
  decide

/-! ## A store without dats -/

theorem emptyStore_launch (rs : RombaService) : EmptyStoreInv (World.launch rs) := by
  simp [EmptyStoreInv, World.launch]

theorem emptyStore_step (env : Env) (hd : env.dats = []) (hn : env.NewLevelDBDeduper = none)
    (hi : env.iterErr = none) (w : World) (a : Actor) (h : EmptyStoreInv w) :
    EmptyStoreInv (step env w a) := by
  obtain ⟨h1, h2, h3, h4⟩ := h
  cases a
  · simp only [step]
    cases hpc : w.pc
    case failed => exact absurd hpc h2
    case newDeduper => simp [jobStep, hpc, hn, hd, EmptyStoreInv, h1]
    case forEachDat => simp [jobStep, hpc, h3, hi, EmptyStoreInv, h1, h4]
    case stopSignal =>
      simp only [jobStep, hpc]
      split
      · simp [EmptyStoreInv, h1, h3, h4]
      · simp [EmptyStoreInv, h1, h3, h4, hpc]
    all_goals simp [jobStep, hpc, EmptyStoreInv, h1, h3, h4]
  · simp only [step, timerStep]
    split
    · exact ⟨h1, h2, h3, h4⟩
    · exact ⟨h1, h2, h3, h4⟩
  · simp only [step, broadcasterStep]
    split
    · exact ⟨h1, h2, h3, h4⟩
    · exact ⟨h1, h2, h3, h4⟩

theorem emptyStore_exec (env : Env) (hd : env.dats = []) (hn : env.NewLevelDBDeduper = none)
    (hi : env.iterErr = none) (sched : List Actor) (w : World) (h : EmptyStoreInv w) :
    EmptyStoreInv (exec env sched w) := by
  induction sched generalizing w with
  | nil => exact h
  | cons a as ih => exact ih (step env w a) (emptyStore_step env hd hn hi w a h)

theorem histogramLoop_of_zero_counts (ibytes : Nat → String) (bs : List Bracket)
    (h : ∀ b ∈ bs, b.Count = 0) : histogramLoop ibytes bs = [] := by
  have key : ∀ (l : List Bracket) (out : List HistogramRow), (∀ b ∈ l, b.Count = 0) →
      l.foldl (histogramStep ibytes) (0, out) = (0, out) := by
    intro l
    induction l with
    | nil => intro out _; rfl
    | cons b l ih =>
      intro out hl
      have hb : b.Count = 0 := hl b (List.mem_cons_self _ _)
      have hs : histogramStep ibytes (0, out) b = (0, out) := by
        simp [histogramStep, hb, wrapInt64]
      rw [List.foldl_cons, hs]
      exact ih out (fun x hx => hl x (List.mem_cons_of_mem _ hx))
  unfold histogramLoop
  rw [key bs [] h]

/-- C9, on a concrete run: on a store without dats, with a histogram library whose
cumulative distribution of an empty histogram is the single closing bracket at
100 percent, the job completes with all counters zero, but the cumulative table
of the report has one data row. -/
theorem empty_store_report_has_a_cumulative_row :
    (exec closingBracketEnv (List.replicate 9 Actor.job) (World.launch acquiredService)).completed
      = true
    ∧ (exec closingBracketEnv (List.replicate 9 Actor.job) (World.launch acquiredService)).dts
      = datStats.fresh
    ∧ (exec closingBracketEnv (List.replicate 9 Actor.job)
        (World.launch acquiredService)).trace.getLast?
      = some (Event.broadcast false true
          (Msg.report
            { nDats := 0, nGames := 0, nRoms := 0, totalSize := "0 B", nRomsBelow4k := 0,
              cumulative := [{ count := 0, quantile := 100, size := "0 B" }],
              histogram := [] })
          none) := by
  decide

/-- C9 as amended: on a store without dats whose deduper starts and whose
iteration raises no error, every schedule with nine steps of the job goroutine
makes the job return, and whenever the job has returned it completed: no error,
all counters zero, nothing recorded in the histogram, the guard released, and
the last event is the terminal snapshot with a nil error and the report. The
tables of the report are those of the library's cumulative distribution of an
empty histogram: both have no data rows when that distribution is empty, the
histogram table has none when all its counts are zero, and the cumulative table
has a data row when it is not empty. -/
theorem datstats_empty_store_completes (env : Env) (rs : RombaService) (sched : List Actor)
    (hd : env.dats = []) (hn : env.NewLevelDBDeduper = none) (hi : env.iterErr = none) :
    (9 ≤ sched.count Actor.job → (exec env sched (World.launch rs)).returned = true)
    ∧ ((exec env sched (World.launch rs)).returned = true →
        (exec env sched (World.launch rs)).completed = true
        ∧ (exec env sched (World.launch rs)).dts
            = { h := [], nRoms := 0, nDats := 0, nGames := 0, totalSize := 0, nRomsBelow4k := 0 }
        ∧ (exec env sched (World.launch rs)).rs.busy = false
        ∧ (exec env sched (World.launch rs)).trace.getLast?
            = some (Event.broadcast false true
                (Msg.report
                  { nDats := 0, nGames := 0, nRoms := 0, totalSize := env.IBytes 0,
                    nRomsBelow4k := 0,
                    cumulative := cumulativeLoop env.IBytes (env.CumulativeDistribution []),
                    histogram := histogramLoop env.IBytes (env.CumulativeDistribution []) })
                none))
    ∧ (env.CumulativeDistribution [] = [] →
        cumulativeLoop env.IBytes (env.CumulativeDistribution []) = []
        ∧ histogramLoop env.IBytes (env.CumulativeDistribution []) = [])
    ∧ ((∀ b ∈ env.CumulativeDistribution [], b.Count = 0) →
        histogramLoop env.IBytes (env.CumulativeDistribution []) = [])
    ∧ (env.CumulativeDistribution [] ≠ [] →
        cumulativeLoop env.IBytes (env.CumulativeDistribution []) ≠ []) := by
  refine ⟨?_, ?_, ?_, histogramLoop_of_zero_counts _ _, ?_⟩
  · intro hc
    exact job_returns env rs sched (by rw [hd]; simpa using hc)
  · intro hret
    have hpc : (exec env sched (World.launch rs)).pc = PC.done := by
      simpa [World.returned] using hret
    obtain ⟨herr, _, _, hdts⟩ := emptyStore_exec env hd hn hi sched _ (emptyStore_launch rs)
    have hinv := inv_exec env rs sched
    unfold Inv at hinv
    simp only [hpc] at hinv
    obtain ⟨h1, _, ⟨pre, hp1, _, _⟩, _, _⟩ := hinv.1 herr
    refine ⟨(completed_iff _).mpr ⟨hpc, herr⟩, hdts, h1, ?_⟩
    rw [hp1, hdts]
    simp [makeReport, datStats.fresh]
  · intro he
    rw [he]
    exact ⟨rfl, rfl⟩
  · intro hne hnil
    have := (cumulativeLoop_getLast env.IBytes _ hne).2
    rw [hnil] at this
    cases hl : (env.CumulativeDistribution []).getLast? with
    | none => exact hne (List.getLast?_eq_none_iff.mp hl)
    | some b => simp [hl] at this

/-- An instance of C9 as amended: the store without dats and the library with an
empty cumulative distribution, with a tick in between; the job returns, completed,
with the guard released. -/
theorem datstats_empty_store_completes_witness :
    emptyStoreEnv.dats = [] ∧ emptyStoreEnv.NewLevelDBDeduper = none
    ∧ emptyStoreEnv.iterErr = none
    ∧ (exec emptyStoreEnv
          [Actor.job, Actor.job, Actor.timer, Actor.broadcaster, Actor.job, Actor.job, Actor.job,
            Actor.job, Actor.job, Actor.job, Actor.job]
          (World.launch acquiredService)).returned = true
    ∧ (exec emptyStoreEnv
          [Actor.job, Actor.job, Actor.timer, Actor.broadcaster, Actor.job, Actor.job, Actor.job,
            Actor.job, Actor.job, Actor.job, Actor.job]
          (World.launch acquiredService)).completed = true
    ∧ (exec emptyStoreEnv
          [Actor.job, Actor.job, Actor.timer, Actor.broadcaster, Actor.job, Actor.job, Actor.job,
            Actor.job, Actor.job, Actor.job, Actor.job]
          (World.launch acquiredService)).rs.busy = false :=
  ⟨rfl, rfl, rfl, by decide,
   ((datstats_empty_store_completes emptyStoreEnv acquiredService
      [Actor.job, Actor.job, Actor.timer, Actor.broadcaster, Actor.job, Actor.job, Actor.job,
        Actor.job, Actor.job, Actor.job, Actor.job]
      rfl rfl rfl).2.1 (by decide)).1,
   ((datstats_empty_store_completes emptyStoreEnv acquiredService
      [Actor.job, Actor.job, Actor.timer, Actor.broadcaster, Actor.job, Actor.job, Actor.job,
        Actor.job, Actor.job, Actor.job, Actor.job]
      rfl rfl rfl).2.1 (by decide)).2.2.1⟩

end Romba
